import Mathlib

/-!
mcp-hub: configuration generation, change listener and request gate

A shallow embedding of

* `src/services/configGenerator.js` (`renderTemplate`, `renderArrayTemplate`,
  `generateConfigFile`),
* `src/middleware/auth.js` (`authMiddleware`),
* `src/middleware/clientProxy.js` (`clientProxyMiddleware`),
* `src/config.js` and `startMcpHub` of `src/multi-tenant-startup.js`,
* `listenForChanges` of `src/db/index.js` with the callback `initConfigSync`
  (`src/services/configSync.js`) and `setupDatabaseListener` install.

JavaScript strings are modelled by `String`, JSON scalars by `JsValue`, and a
JavaScript object with string keys by an association list in property
(insertion) order.  Nested arrays and objects inside `argsTemplate`,
`configVars` and request bodies are outside the model.
-/

namespace McpHub

/-! ## JavaScript values and objects -/

/-- A JSON scalar as it is found in a row or in a request body.  A number is
given by the text JavaScript prints for it: `String(v)` and `JSON.stringify(v)`
print a finite number alike (`1.5`, `1e+21`), and zero of either sign prints
`0`. -/
inductive JsValue where
  | null : JsValue
  | bool (b : Bool) : JsValue
  | num (text : String) : JsValue
  | str (s : String) : JsValue
  deriving DecidableEq, Repr

/-- The string conversion `String(v)` applied by template literals and by
`String.prototype.replace` to the value its callback returns. -/
def JsValue.toStr : JsValue → String
  | .null => "null"
  | .bool true => "true"
  | .bool false => "false"
  | .num text => text
  | .str s => s

/-- JavaScript truthiness, as tested by `!v` and `a || b`. -/
def JsValue.truthy : JsValue → Bool
  | .null => false
  | .bool b => b
  | .num text => text != "0"
  | .str s => s != ""

/-- An object: its own properties in property order, keys pairwise distinct. -/
abbrev JsObject (α : Type) := List (String × α)

/-- Own-property read `obj[k]` (`none` is `undefined`). -/
def getOwn {α : Type} (obj : JsObject α) (k : String) : Option α :=
  (obj.find? (fun p => p.1 == k)).map Prod.snd

/-- Property write `obj[k] = v`: an existing property keeps its place and takes
the new value, a new property is appended. -/
def setProp {α : Type} : JsObject α → String → α → JsObject α
  | [], k, v => [(k, v)]
  | (k', v') :: rest, k, v =>
    if k' = k then (k', v) :: rest else (k', v') :: setProp rest k v

/-- The keys of an object, in property order (`Object.keys`). -/
def keys {α : Type} (obj : JsObject α) : List String := obj.map Prod.fst

/-- String conversion of what `({})[k]` yields for the properties every plain
object inherits from `Object.prototype`; `none` for every other key. -/
def inheritedToStr (k : String) : Option String :=
  if k = "__proto__" then some "[object Object]"
  else if k = "constructor" then some "function Object() \x7b [native code] \x7d"
  else if k ∈ ["toString", "toLocaleString", "valueOf", "hasOwnProperty",
      "isPrototypeOf", "propertyIsEnumerable", "__defineGetter__",
      "__defineSetter__", "__lookupGetter__", "__lookupSetter__"] then
    some ("function " ++ k ++ "() \x7b [native code] \x7d")
  else none

/-- The text `variables[key]` contributes when it is `!== undefined`: an own
property wins, otherwise the property inherited from `Object.prototype`. -/
def lookupVar (vars : JsObject JsValue) (key : String) : Option String :=
  match getOwn vars key with
  | some v => some v.toStr
  | none => inheritedToStr key

/-! ## Template rendering (`configGenerator.js`, lines 16-35) -/

/-- The class `\w`: ASCII letters, digits and the underscore. -/
def isWordChar (c : Char) : Bool := c.isAlphanum || c == '_'

/-- One attempt of `/\{\{(\w+)\}\}/` at the head of the input: the captured key
and the input after the match.  `\w+` is greedy and what follows it must be
`}}`, which no word character is, so only the longest run can succeed. -/
def matchPlaceholder : List Char → Option (List Char × List Char)
  | '{' :: '{' :: cs =>
    match cs.takeWhile isWordChar, cs.dropWhile isWordChar with
    | _ :: _, '}' :: '}' :: rest => some (cs.takeWhile isWordChar, rest)
    | _, _ => none
  | _ => none

/-- The global replace of `renderTemplate` on characters: scan left to right,
substitute at each match and resume after it.  `fuel` bounds the number of
scan steps; the length of the input is always enough. -/
def renderChars (vars : JsObject JsValue) : Nat → List Char → List Char
  | 0, _ => []
  | _ + 1, [] => []
  | fuel + 1, c :: cs =>
    match matchPlaceholder (c :: cs) with
    | some (key, rest) =>
      (match lookupVar vars (String.mk key) with
        | some v => v.data
        | none => '{' :: '{' :: key ++ ['}', '}']) ++ renderChars vars fuel rest
    | none => c :: renderChars vars fuel cs

/-- Model of `renderTemplate(template, variables)`. -/
def renderTemplate (template : String) (vars : JsObject JsValue) : String :=
  String.mk (renderChars vars template.data.length template.data)

/-- Model of `renderArrayTemplate(templates, variables)`: strings are rendered,
every other element passes through. -/
def renderArrayTemplate (templates : List JsValue) (vars : JsObject JsValue) :
    List JsValue :=
  templates.map fun template =>
    match template with
    | .str s => .str (renderTemplate s vars)
    | other => other

/-- What the callback of `renderTemplate` returns for the captured `key`, as the
text `replace` puts in: the value found, or the match `{{key}}` itself. -/
def substitution (vars : JsObject JsValue) (key : List Char) : List Char :=
  match lookupVar vars (String.mk key) with
  | some v => v.data
  | none => '{' :: '{' :: key ++ ['}', '}']

/-! ## The assembler (`generateConfigFile`, lines 41-63) -/

/-- A row of `mcpServers`. -/
structure McpServer where
  mcpServerId : String
  description : String
  command : String
  argsTemplate : List JsValue
  deriving DecidableEq, Repr

/-- A row of `userMcpServers`. -/
structure UserMcpServer where
  id : String
  userId : String
  mcpServerId : String
  configVars : JsObject JsValue
  deriving DecidableEq, Repr

/-- A value of `configuration.mcpServers`. -/
structure ServerEntry where
  command : String
  args : List JsValue
  deriving DecidableEq, Repr

/-- The template literal that builds the tenant-qualified key (line 54 of
`configGenerator.js`, line 32 of `clientProxy.js`). -/
def uniqueServerId (mcpServerId userId : String) : String :=
  mcpServerId ++ "-" ++ userId

/-- The lookup `servers.find(s => s.mcpServerId === userConfig.mcpServerId)`. -/
def findServer (servers : List McpServer) (userConfig : UserMcpServer) :
    Option McpServer :=
  servers.find? fun s => s.mcpServerId == userConfig.mcpServerId

/-- The key a binding writes, when it resolves. -/
def writtenKey (servers : List McpServer) (userConfig : UserMcpServer) : Option String :=
  (findServer servers userConfig).map fun d => uniqueServerId d.mcpServerId userConfig.userId

/-- The entry written for a binding that resolved to `server`. -/
def entryOf (server : McpServer) (userConfig : UserMcpServer) : ServerEntry :=
  { command := server.command,
    args := renderArrayTemplate server.argsTemplate userConfig.configVars }

/-- One iteration of the loop over `userConfigs`. -/
def assembleStep (servers : List McpServer) (mcpServers : JsObject ServerEntry)
    (userConfig : UserMcpServer) : JsObject ServerEntry :=
  match findServer servers userConfig with
  | some server =>
    setProp mcpServers (uniqueServerId server.mcpServerId userConfig.userId)
      (entryOf server userConfig)
  | none => mcpServers

/-- The object `configuration.mcpServers` after the loop of
`generateConfigFile`, started from the empty object. -/
def assemble (servers : List McpServer) (userConfigs : List UserMcpServer) :
    JsObject ServerEntry :=
  userConfigs.foldl (assembleStep servers) []

/-! ## Serialisation and the write (`generateConfigFile`, lines 65-69) -/

/-- A lower-case hexadecimal digit. -/
def hexDigit (n : Nat) : Char :=
  if n < 10 then Char.ofNat (48 + n) else Char.ofNat (87 + n)

/-- The escape `JSON.stringify` writes for one character of a string. -/
def jsonEscapeChar (c : Char) : List Char :=
  if c = Char.ofNat 34 then [Char.ofNat 92, Char.ofNat 34]
  else if c = Char.ofNat 92 then [Char.ofNat 92, Char.ofNat 92]
  else if c = Char.ofNat 8 then [Char.ofNat 92, 'b']
  else if c = Char.ofNat 9 then [Char.ofNat 92, 't']
  else if c = Char.ofNat 10 then [Char.ofNat 92, 'n']
  else if c = Char.ofNat 12 then [Char.ofNat 92, 'f']
  else if c = Char.ofNat 13 then [Char.ofNat 92, 'r']
  else if c.toNat < 32 then
    [Char.ofNat 92, 'u', '0', '0', hexDigit (c.toNat / 16), hexDigit (c.toNat % 16)]
  else [c]

/-- The quoted form `JSON.stringify(s)` of a string. -/
def jsonQuote (s : String) : String :=
  String.mk (Char.ofNat 34 :: s.data.flatMap jsonEscapeChar ++ [Char.ofNat 34])

/-- The form `JSON.stringify(v)` of a scalar. -/
def jsonScalar : JsValue → String
  | .null => "null"
  | .bool true => "true"
  | .bool false => "false"
  | .num text => text
  | .str s => jsonQuote s

/-- Indentation of nesting depth `level` under the `space` argument 2. -/
def indent (level : Nat) : String := String.mk (List.replicate (2 * level) ' ')

/-- A bracketed, comma-separated block whose items sit one level deeper than
the closing bracket; an empty block is the two brackets alone. -/
def jsonBlock (opening closing : String) (level : Nat) (items : List String) : String :=
  if items.isEmpty then opening ++ closing
  else opening ++ "\n" ++
    ",\n".intercalate (items.map fun item => indent (level + 1) ++ item) ++
    "\n" ++ indent level ++ closing

/-- An object member `"key": value`. -/
def jsonMember (key value : String) : String := jsonQuote key ++ ": " ++ value

/-- The serialisation of one entry, itself at depth `level`. -/
def stringifyEntry (level : Nat) (e : ServerEntry) : String :=
  jsonBlock "\x7b" "\x7d" level
    [jsonMember "command" (jsonQuote e.command),
     jsonMember "args" (jsonBlock "[" "]" (level + 1) (e.args.map jsonScalar))]

/-- Model of `JSON.stringify(configuration, null, 2)` for
`configuration = \x7b mcpServers \x7d`. -/
def stringifyConfiguration (mcpServers : JsObject ServerEntry) : String :=
  jsonBlock "\x7b" "\x7d" 0
    [jsonMember "mcpServers"
      (jsonBlock "\x7b" "\x7d" 1
        (mcpServers.map fun p => jsonMember p.1 (stringifyEntry 2 p.2)))]

/-- Files by path; `none` is a missing file. -/
abbrev FileSystem := String → Option String

/-- How far a write got: the file could not be opened, the write stopped after
`written` characters, or all the data was written. -/
inductive WriteProgress where
  | completed : WriteProgress
  | interrupted (written : Nat) : WriteProgress
  | refused : WriteProgress
  deriving DecidableEq, Repr

/-- Model of `fs.writeFile(path, data)` of Node.js with its default flag `w`:
the file is opened truncated and the data is written to it front to back, so a
write that stops after `written` characters leaves that prefix of `data`; when
the file cannot be opened nothing changes. -/
def fsWriteFile (fs : FileSystem) (path data : String) : WriteProgress → FileSystem
  | .completed => fun p => if p = path then some data else fs p
  | .interrupted written =>
    fun p => if p = path then some (String.mk (data.data.take written)) else fs p
  | .refused => fs

/-! ## Environment (`config.js`) and the hub process (`startMcpHub`) -/

/-- Model of `s.split(sep)` for a one-character separator, on characters. -/
def splitChars (sep : Char) : List Char → List (List Char)
  | [] => [[]]
  | c :: cs =>
    if c = sep then [] :: splitChars sep cs
    else
      match splitChars sep cs with
      | [] => [[c]]
      | w :: ws => (c :: w) :: ws

/-- The variables of `process.env` the modelled code reads. -/
structure Env where
  PORT : Option String
  MCP_HUB_SECRET : Option String
  CONFIG_FILE_PATH : Option String
  deriving DecidableEq, Repr

/-- The operator `a || b` on values that are a string or `undefined`. -/
def orElse (a : Option String) (b : String) : String :=
  match a with
  | some s => if s = "" then b else s
  | none => b

/-- One step of path normalisation over the segments kept so far (innermost
first) of an absolute path. -/
def normalizeStep (kept : List String) (segment : String) : List String :=
  if segment = "" ∨ segment = "." then kept
  else if segment = ".." then kept.tail
  else segment :: kept

/-- Model of `path.join` (POSIX) applied to an absolute first part: the parts
are joined by `/` and the result is normalised. -/
def pathJoin (parts : List String) : String :=
  let segments := (splitChars '/' ("/".intercalate parts).data).map String.mk
  "/" ++ "/".intercalate (segments.foldl normalizeStep []).reverse

/-- The expression `path.join(__dirname, '..', 'mcp-servers.json')`, which
`config.js` and `multi-tenant-startup.js` both evaluate in the directory `src`. -/
def defaultConfigFilePath (dirname : String) : String :=
  pathJoin [dirname, "..", "mcp-servers.json"]

/-- The field `configFilePath` of `config.js`. -/
def configFilePath (env : Env) (dirname : String) : String :=
  orElse env.CONFIG_FILE_PATH (defaultConfigFilePath dirname)

/-- The array `args` that `startMcpHub` hands to `spawn('npx', args, ...)`.  With
the option `shell: true` the shell joins and splits these again at blanks; that
step is not modelled. -/
def startMcpHubArgs (env : Env) (dirname : String) : List String :=
  ["mcp-hub", "--config", defaultConfigFilePath dirname,
   "--port", orElse env.PORT "3000", "--watch"]

/-- The value that follows `--config` in an argument list. -/
def configArg : List String → Option String
  | [] => none
  | a :: rest => if a = "--config" then rest.head? else configArg rest

/-- Model of `generateConfigFile` over the rows the two `getAll` queries
returned: the file system after the write and, when the write completed, the
configuration returned (a write that did not complete rejects and is rethrown). -/
def generateConfigFile (env : Env) (dirname : String) (servers : List McpServer)
    (userConfigs : List UserMcpServer) (fs : FileSystem) (progress : WriteProgress) :
    FileSystem × Option (JsObject ServerEntry) :=
  let mcpServers := assemble servers userConfigs
  (fsWriteFile fs (configFilePath env dirname) (stringifyConfiguration mcpServers) progress,
   match progress with
   | .completed => some mcpServers
   | .interrupted _ => none
   | .refused => none)

/-! ## Request gate (`auth.js`, `clientProxy.js`) -/

/-- What a middleware did with a request: it called `next`, answered with
`res.status(code).json(\x7b error, message \x7d)`, or posted `data` to `url`. -/
inductive Outcome where
  | next : Outcome
  | respond (status : Nat) (error message : String) : Outcome
  | forward (url : String) (data : JsObject JsValue) : Outcome
  deriving DecidableEq, Repr

/-- Model of `String.prototype.startsWith`. -/
def startsWith (s pre : String) : Bool := pre.data.isPrefixOf s.data

/-- The expression `authHeader.split(' ')[1]` (`none` is `undefined`). -/
def bearerToken (authHeader : String) : Option String :=
  ((splitChars ' ' authHeader.data).get? 1).map String.mk

/-- Model of `authMiddleware`: `mcpHubSecret` is `config.mcpHubSecret` and
`authorization` is `req.headers.authorization`. -/
def authMiddleware (mcpHubSecret : Option String) (authorization : Option String) :
    Outcome :=
  match authorization with
  | none => .respond 401 "Unauthorized" "Missing or invalid authorization header"
  | some authHeader =>
    if authHeader = "" ∨ ¬ startsWith authHeader "Bearer " then
      .respond 401 "Unauthorized" "Missing or invalid authorization header"
    else if bearerToken authHeader ≠ mcpHubSecret then
      .respond 403 "Forbidden" "Invalid authorization token"
    else .next

/-- The parts of a request `clientProxyMiddleware` reads. -/
structure ProxyRequest where
  userId : Option String
  paramsMcpServerId : Option String
  body : JsObject JsValue
  path : String
  deriving DecidableEq, Repr

/-- The expression `req.params.mcpServerId || req.body.mcpServerId`. -/
def requestedServerId (req : ProxyRequest) : Option JsValue :=
  match req.paramsMcpServerId with
  | some s => if s = "" then getOwn req.body "mcpServerId" else some (.str s)
  | none => getOwn req.body "mcpServerId"

/-- Model of `clientProxyMiddleware` up to and including the `axios.post`: the
answer given before any request is made, or the request made.  What is answered
after the post is `clientProxy` below. -/
def clientProxyMiddleware (env : Env) (req : ProxyRequest) : Outcome :=
  match req.userId with
  | none => .respond 401 "Unauthorized" "User authentication required"
  | some userId =>
    if userId = "" then .respond 401 "Unauthorized" "User authentication required"
    else
      match requestedServerId req with
      | none => .respond 400 "Bad Request" "Missing MCP server ID"
      | some mcpServerId =>
        if ¬ mcpServerId.truthy then .respond 400 "Bad Request" "Missing MCP server ID"
        else
          .forward ("http://localhost:" ++ orElse env.PORT "3000" ++ "/api" ++ req.path)
            (setProp req.body "server_name"
              (.str (uniqueServerId mcpServerId.toStr userId)))

/-- What `axios.post` met: the hub replied with a status and a body, the request
was sent and no reply came, or the request could not be sent. -/
inductive PostResult where
  | response (status : Nat) (data : JsObject JsValue) : PostResult
  | noResponse : PostResult
  | notSent : PostResult
  deriving DecidableEq, Repr

/-- What `clientProxyMiddleware` answers with `res.status(..).json(..)`: a body
`{ error, message, timestamp }` of its own, the body of the hub as it is, or the
body `{ error: 'MCP-Hub Error', message, details, timestamp }` around the reply
of the hub. -/
inductive ProxyResponse where
  | own (status : Nat) (error message : String) : ProxyResponse
  | relayed (status : Nat) (data : JsObject JsValue) : ProxyResponse
  | hubError (status : Nat) (message : JsValue) (details : JsObject JsValue) : ProxyResponse
  deriving DecidableEq, Repr

/-- The status code of an answer. -/
def ProxyResponse.status : ProxyResponse → Nat
  | .own status _ _ => status
  | .relayed status _ => status
  | .hubError status _ _ => status

/-- The expression `error.response.data.message || 'Error from MCP-Hub'`. -/
def hubErrorMessage (data : JsObject JsValue) : JsValue :=
  match getOwn data "message" with
  | some v => if v.truthy then v else .str "Error from MCP-Hub"
  | none => .str "Error from MCP-Hub"

/-- One run of the middleware: the request posted to the hub, if any, and the
answer sent. -/
structure ProxyRun where
  posted : Option (String × JsObject JsValue)
  response : ProxyResponse
  deriving DecidableEq, Repr

/-- The address posted to: `mcpHubUrl` followed by `req.path`. -/
def proxyUrl (env : Env) (req : ProxyRequest) : String :=
  "http://localhost:" ++ orElse env.PORT "3000" ++ "/api" ++ req.path

/-- What is answered once `axios.post` has settled (lines 41-72).  `axios`
resolves for a status from 200 to 299, whose reply is passed on as it is, and
rejects with `error.response` for any other reply, with `error.request` alone
when no reply came, and with neither when the request was not sent. -/
def answerAfterPost : PostResult → ProxyResponse
  | .response status data =>
    if 200 ≤ status ∧ status < 300 then .relayed status data
    else .hubError status (hubErrorMessage data) data
  | .noResponse => .own 503 "Service Unavailable" "MCP-Hub service is unavailable"
  | .notSent => .own 500 "Internal Server Error" "An error occurred in the client proxy"

/-- Model of the whole of `clientProxyMiddleware` (lines 10-72), `hub` saying
what `axios.post` meets for an address and a payload. -/
def clientProxy (env : Env) (req : ProxyRequest)
    (hub : String → JsObject JsValue → PostResult) : ProxyRun :=
  match req.userId with
  | none =>
    { posted := none, response := .own 401 "Unauthorized" "User authentication required" }
  | some userId =>
    if userId = "" then
      { posted := none, response := .own 401 "Unauthorized" "User authentication required" }
    else
      match requestedServerId req with
      | none => { posted := none, response := .own 400 "Bad Request" "Missing MCP server ID" }
      | some mcpServerId =>
        if ¬ mcpServerId.truthy then
          { posted := none, response := .own 400 "Bad Request" "Missing MCP server ID" }
        else
          { posted :=
              some (proxyUrl env req,
                setProp req.body "server_name"
                  (.str (uniqueServerId mcpServerId.toStr userId))),
            response :=
              answerAfterPost
                (hub (proxyUrl env req)
                  (setProp req.body "server_name"
                    (.str (uniqueServerId mcpServerId.toStr userId)))) }

/-! ## Change listener (`db/index.js`, `configSync.js`, `multi-tenant-startup.js`) -/

/-- A message of the `notification` event of the listener connection. -/
structure Notification where
  channel : String
  payload : String
  deriving DecidableEq, Repr

/-- The handler `listenForChanges` installs with `client.on('notification', ...)`:
the arguments of the calls of `callback` it makes for one message. -/
def notificationHandler (channel : String) (msg : Notification) : List String :=
  if msg.channel = channel then [msg.payload] else []

/-- The calls of `callback` made while the messages `msgs` are delivered one
after the other, oldest call first. -/
def deliver (channel : String) (msgs : List Notification) : List String :=
  msgs.foldl (fun calls msg => calls ++ notificationHandler channel msg) []

/-- A settled promise. -/
inductive Settled (α : Type) where
  | fulfilled (value : α) : Settled α
  | rejected (error : String) : Settled α
  deriving DecidableEq, Repr

/-- A line written with `console.log`, or with `console.error` together with
the error it reports. -/
inductive ConsoleLine where
  | log (text : String) : ConsoleLine
  | error (text : String) (error : String) : ConsoleLine
  deriving DecidableEq, Repr

/-- What the operations awaited by one run of `generateConfigFile` do: the
outcome of each `getAll` query and of `fs.writeFile`, whose failure is given by
how far the write had got and by its error. -/
structure PassEffects where
  servers : Except String (List McpServer)
  userConfigs : Except String (List UserMcpServer)
  writeFailure : Option (WriteProgress × String)

/-- The first failure among the operations of a pass, in the order they are
awaited. -/
def PassEffects.failure (io : PassEffects) : Option String :=
  match io.servers, io.userConfigs, io.writeFailure with
  | .error e, _, _ => some e
  | .ok _, .error e, _ => some e
  | .ok _, .ok _, some (_, e) => some e
  | .ok _, .ok _, none => none

/-- Model of `generateConfigFile` with its `try`/`catch` (lines 41-74): the file
system afterwards, the console lines written and the promise returned.  A
failed query is logged by `query` and rethrown; the `catch` block logs every
error and rethrows it. -/
def generateConfigFileAsync (env : Env) (dirname : String) (io : PassEffects)
    (fs : FileSystem) : FileSystem × List ConsoleLine × Settled (JsObject ServerEntry) :=
  match io.servers with
  | .error e =>
    (fs, [.error "Database query error:" e,
      .error "Error generating MCP servers configuration file:" e], .rejected e)
  | .ok servers =>
    match io.userConfigs with
    | .error e =>
      (fs, [.error "Database query error:" e,
        .error "Error generating MCP servers configuration file:" e], .rejected e)
    | .ok userConfigs =>
      match io.writeFailure with
      | some (progress, e) =>
        ((generateConfigFile env dirname servers userConfigs fs progress).1,
          [.error "Error generating MCP servers configuration file:" e], .rejected e)
      | none =>
        ((generateConfigFile env dirname servers userConfigs fs .completed).1,
          [.log ("MCP servers configuration file generated at " ++
            configFilePath env dirname)],
          .fulfilled (assemble servers userConfigs))

/-- The channel `initConfigSync` and `setupDatabaseListener` subscribe to. -/
def changeChannel : String := "userMcpServersChanged"

/-- Model of the callback `initConfigSync` and `setupDatabaseListener` pass to
`listenForChanges`: it logs, awaits `generateConfigFile()` and has no `catch`,
so its promise is rejected with the error of a failed pass. -/
def onChange (env : Env) (dirname : String) (io : PassEffects) (fs : FileSystem) :
    FileSystem × List ConsoleLine × Settled Unit :=
  let pass := generateConfigFileAsync env dirname io fs
  (pass.1,
    .log "Received notification of userMcpServers change, regenerating configuration file..."
      :: pass.2.1,
    match pass.2.2 with
    | .fulfilled _ => .fulfilled ()
    | .rejected e => .rejected e)

/-- What the runtime does with a rejected promise nobody handles (the modes of
`--unhandled-rejections` of Node.js): raise it as an uncaught exception, which
ends the process, or only warn. -/
inductive UnhandledRejections where
  | throw : UnhandledRejections
  | warn : UnhandledRejections
  deriving DecidableEq, Repr

/-- The process as far as the listener is concerned. -/
structure ListenerState where
  fs : FileSystem
  console : List ConsoleLine
  unhandled : List String
  running : Bool

/-- One `notification` event with the callback of `initConfigSync` installed:
the handler calls the callback for a message on the channel and drops the
promise it returns, so a rejection stays unhandled.  Each pass is run to its
end before the next message is looked at. -/
def onNotification (mode : UnhandledRejections) (env : Env) (dirname : String)
    (state : ListenerState) (event : Notification × PassEffects) : ListenerState :=
  if state.running = false then state
  else if event.1.channel = changeChannel then
    let r := onChange env dirname event.2 state.fs
    match r.2.2 with
    | .fulfilled _ =>
      { fs := r.1, console := state.console ++ r.2.1,
        unhandled := state.unhandled, running := true }
    | .rejected e =>
      { fs := r.1, console := state.console ++ r.2.1,
        unhandled := state.unhandled ++ [e],
        running := decide (mode = UnhandledRejections.warn) }
  else state

/-! ## Template rendering: the scan always has enough steps -/

theorem matchPlaceholder_some {l key rest : List Char}
    (h : matchPlaceholder l = some (key, rest)) :
    ∃ cs, l = '{' :: '{' :: cs ∧ key = cs.takeWhile isWordChar ∧ key ≠ [] ∧
      cs.dropWhile isWordChar = '}' :: '}' :: rest := by
  unfold matchPlaceholder at h
  split at h
  · rename_i cs
    split at h
    · rename_i a w rest' htw hdw
      simp only [Option.some.injEq, Prod.mk.injEq] at h
      refine ⟨cs, rfl, h.1.symm, ?_, ?_⟩
      · rw [← h.1, htw]
        simp
      · rw [hdw, h.2]
    · cases h
  · cases h

theorem matchPlaceholder_rest_length {c : Char} {cs key rest : List Char}
    (h : matchPlaceholder (c :: cs) = some (key, rest)) : rest.length ≤ cs.length := by
  obtain ⟨cs', hl, _, _, hdw⟩ := matchPlaceholder_some h
  have h1 : (cs'.dropWhile isWordChar).length ≤ cs'.length :=
    (List.dropWhile_sublist _).length_le
  rw [hdw] at h1
  have h2 : cs = '{' :: cs' := (List.cons.inj hl).2
  rw [h2]
  simp only [List.length_cons] at h1 ⊢
  omega

theorem renderChars_fuel (vars : JsObject JsValue) (f1 f2 : Nat) (cs : List Char)
    (h1 : cs.length ≤ f1) (h2 : cs.length ≤ f2) :
    renderChars vars f1 cs = renderChars vars f2 cs := by
  induction f1 generalizing f2 cs with
  | zero =>
    have : cs = [] := List.length_eq_zero.1 (Nat.le_zero.1 h1)
    subst this
    cases f2 <;> rfl
  | succ f1 ih =>
    cases cs with
    | nil => cases f2 <;> rfl
    | cons c cs =>
      cases f2 with
      | zero => simp at h2
      | succ f2 =>
        have h1' : cs.length ≤ f1 := by simpa using h1
        have h2' : cs.length ≤ f2 := by simpa using h2
        simp only [renderChars]
        cases hm : matchPlaceholder (c :: cs) with
        | none => simp only [ih f2 cs h1' h2']
        | some kr =>
          obtain ⟨key, rest⟩ := kr
          have hr := matchPlaceholder_rest_length hm
          simp only [ih f2 rest (le_trans hr h1') (le_trans hr h2')]

/-! ## Objects: reading after writing -/

theorem getOwn_cons {α : Type} (p : String × α) (o : JsObject α) (k : String) :
    getOwn (p :: o) k = if p.1 = k then some p.2 else getOwn o k := by
  unfold getOwn
  by_cases h : p.1 = k <;> simp [List.find?_cons, h]

theorem getOwn_setProp_self {α : Type} (o : JsObject α) (k : String) (v : α) :
    getOwn (setProp o k v) k = some v := by
  induction o with
  | nil => simp [setProp, getOwn_cons]
  | cons p o ih =>
    obtain ⟨k', v'⟩ := p
    by_cases h : k' = k
    · simp [setProp, h, getOwn_cons]
    · simp [setProp, h, getOwn_cons, ih]

theorem getOwn_setProp_of_ne {α : Type} (o : JsObject α) (k k' : String) (v : α)
    (hne : k ≠ k') : getOwn (setProp o k v) k' = getOwn o k' := by
  induction o with
  | nil => simp [setProp, getOwn_cons, hne, getOwn]
  | cons p o ih =>
    obtain ⟨k1, v1⟩ := p
    by_cases h : k1 = k
    · subst h
      simp [setProp, getOwn_cons, hne]
    · simp [setProp, h, getOwn_cons, ih]

theorem mem_keys_setProp {α : Type} (o : JsObject α) (k k' : String) (v : α) :
    k' ∈ keys (setProp o k v) ↔ k' = k ∨ k' ∈ keys o := by
  induction o with
  | nil => simp [setProp, keys]
  | cons p o ih =>
    obtain ⟨k1, v1⟩ := p
    by_cases h : k1 = k
    · subst h
      simp [setProp, keys]
    · have ih' : k' ∈ List.map Prod.fst (setProp o k v) ↔ k' = k ∨ k' ∈ List.map Prod.fst o := ih
      simp only [setProp, h, if_false, keys, List.map_cons, List.mem_cons, ih']
      tauto

theorem setProp_of_not_mem {α : Type} (o : JsObject α) (k : String) (v : α)
    (h : k ∉ keys o) : setProp o k v = o ++ [(k, v)] := by
  induction o with
  | nil => rfl
  | cons p o ih =>
    obtain ⟨k1, v1⟩ := p
    have h1 : k1 ≠ k := fun e => h (by simp [keys, e])
    have h2 : k ∉ keys o := fun e => h (by
      have : k ∈ List.map Prod.fst o := e
      simp [keys, this])
    simp [setProp, h1, ih h2]

theorem nodup_keys_setProp {α : Type} (o : JsObject α) (k : String) (v : α)
    (h : (keys o).Nodup) : (keys (setProp o k v)).Nodup := by
  induction o with
  | nil => simp [setProp, keys]
  | cons p o ih =>
    obtain ⟨k1, v1⟩ := p
    have hcons : k1 ∉ keys o ∧ (keys o).Nodup := by
      simpa [keys] using h
    by_cases h1 : k1 = k
    · simpa [setProp, h1, keys] using h
    · have hk : k1 ∉ keys (setProp o k v) := by
        rw [mem_keys_setProp]
        rintro (e | e)
        · exact h1 e
        · exact hcons.1 e
      have := ih hcons.2
      simp only [setProp, h1, if_false, keys, List.map_cons, List.nodup_cons]
      exact ⟨hk, this⟩

theorem getOwn_isSome_of_mem_keys {α : Type} (o : JsObject α) (k : String)
    (h : k ∈ keys o) : ∃ v, getOwn o k = some v := by
  induction o with
  | nil => simp [keys] at h
  | cons p o ih =>
    by_cases h1 : p.1 = k
    · exact ⟨p.2, by simp [getOwn_cons, h1]⟩
    · have : k ∈ keys o := by
        have h' : k = p.1 ∨ k ∈ List.map Prod.fst o := by simpa [keys] using h
        rcases h' with e | e
        · exact absurd e.symm h1
        · exact e
      obtain ⟨v, hv⟩ := ih this
      exact ⟨v, by simp [getOwn_cons, h1, hv]⟩

theorem mem_keys_of_getOwn {α : Type} (o : JsObject α) (k : String) (v : α)
    (h : getOwn o k = some v) : k ∈ keys o := by
  induction o with
  | nil => simp [getOwn] at h
  | cons p o ih =>
    by_cases h1 : p.1 = k
    · simp [keys, ← h1]
    · rw [getOwn_cons, if_neg h1] at h
      have := ih h
      have h' : k ∈ List.map Prod.fst o := this
      simp [keys, h']

/-! ## The assembler loop -/

theorem findServer_some {servers : List McpServer} {b : UserMcpServer} {d : McpServer}
    (h : findServer servers b = some d) : d ∈ servers ∧ d.mcpServerId = b.mcpServerId := by
  unfold findServer at h
  refine ⟨List.mem_of_find?_eq_some h, ?_⟩
  simpa using List.find?_some h

theorem findServer_none_of_unreferenced (servers : List McpServer) (b : UserMcpServer)
    (h : ∀ d ∈ servers, d.mcpServerId ≠ b.mcpServerId) : findServer servers b = none := by
  unfold findServer
  rw [List.find?_eq_none]
  intro d hd
  simpa using h d hd

theorem findServer_of_nodup (servers : List McpServer) (b : UserMcpServer) (d : McpServer)
    (hids : (servers.map fun s => s.mcpServerId).Nodup) (hd : d ∈ servers)
    (href : d.mcpServerId = b.mcpServerId) : findServer servers b = some d := by
  induction servers with
  | nil => simp at hd
  | cons s rest ih =>
    have hn : s.mcpServerId ∉ rest.map (fun s => s.mcpServerId) ∧
        (rest.map fun s => s.mcpServerId).Nodup := by simpa using hids
    rcases List.mem_cons.1 hd with e | e
    · subst e
      simp [findServer, List.find?_cons, href]
    · have hne : s.mcpServerId ≠ b.mcpServerId := by
        intro hs
        apply hn.1
        rw [hs, ← href]
        exact List.mem_map_of_mem _ e
      have := ih hn.2 e
      unfold findServer at this ⊢
      simp [List.find?_cons, hne, this]

theorem assemble_append (servers : List McpServer) (pre post : List UserMcpServer) :
    assemble servers (pre ++ post) =
      post.foldl (assembleStep servers) (assemble servers pre) := by
  simp [assemble, List.foldl_append]

theorem nodup_keys_foldl (servers : List McpServer) (bs : List UserMcpServer)
    (acc : JsObject ServerEntry) (h : (keys acc).Nodup) :
    (keys (bs.foldl (assembleStep servers) acc)).Nodup := by
  induction bs generalizing acc with
  | nil => simpa using h
  | cons b bs ih =>
    rw [List.foldl_cons]
    apply ih
    unfold assembleStep
    cases findServer servers b with
    | none => exact h
    | some d => exact nodup_keys_setProp _ _ _ h

theorem getOwn_foldl_of_not_written (servers : List McpServer) (bs : List UserMcpServer)
    (acc : JsObject ServerEntry) (k : String)
    (h : ∀ b ∈ bs, writtenKey servers b ≠ some k) :
    getOwn (bs.foldl (assembleStep servers) acc) k = getOwn acc k := by
  induction bs generalizing acc with
  | nil => rfl
  | cons b bs ih =>
    rw [List.foldl_cons, ih _ (fun b' hb' => h b' (List.mem_cons_of_mem _ hb'))]
    have hb := h b (List.mem_cons_self _ _)
    unfold assembleStep
    unfold writtenKey at hb
    cases hf : findServer servers b with
    | none => rfl
    | some d =>
      rw [hf] at hb
      exact getOwn_setProp_of_ne _ _ _ _ (fun e => hb (by simp [e]))

theorem getOwn_assemble_last (servers : List McpServer) (pre post : List UserMcpServer)
    (b : UserMcpServer) (d : McpServer) (hb : findServer servers b = some d)
    (hpost : ∀ b' ∈ post,
      writtenKey servers b' ≠ some (uniqueServerId d.mcpServerId b.userId)) :
    getOwn (assemble servers (pre ++ b :: post)) (uniqueServerId d.mcpServerId b.userId) =
      some (entryOf d b) := by
  rw [assemble_append, List.foldl_cons, getOwn_foldl_of_not_written _ _ _ _ hpost]
  simp only [assembleStep, hb]
  exact getOwn_setProp_self _ _ _

theorem foldl_assembleStep_of_nodup (servers : List McpServer) (bs : List UserMcpServer)
    (acc : JsObject ServerEntry)
    (h : (keys acc ++ bs.filterMap (writtenKey servers)).Nodup) :
    bs.foldl (assembleStep servers) acc =
      acc ++ bs.filterMap fun b =>
        (findServer servers b).map fun d =>
          (uniqueServerId d.mcpServerId b.userId, entryOf d b) := by
  induction bs generalizing acc with
  | nil => simp
  | cons b bs ih =>
    rw [List.foldl_cons]
    cases hf : findServer servers b with
    | none =>
      have hw : writtenKey servers b = none := by simp [writtenKey, hf]
      rw [List.filterMap_cons_none hw] at h
      have hstep : assembleStep servers acc b = acc := by simp [assembleStep, hf]
      rw [hstep, ih acc h, List.filterMap_cons_none (by simp [hf])]
    | some d =>
      have hw : writtenKey servers b = some (uniqueServerId d.mcpServerId b.userId) := by
        simp [writtenKey, hf]
      rw [List.filterMap_cons_some hw] at h
      have hnot : uniqueServerId d.mcpServerId b.userId ∉ keys acc := by
        intro hmem
        exact (List.nodup_append.1 h).2.2 hmem (List.mem_cons_self _ _)
      have hstep : assembleStep servers acc b =
          acc ++ [(uniqueServerId d.mcpServerId b.userId, entryOf d b)] := by
        simp only [assembleStep, hf]
        exact setProp_of_not_mem _ _ _ hnot
      have h' : (keys (acc ++ [(uniqueServerId d.mcpServerId b.userId, entryOf d b)]) ++
          bs.filterMap (writtenKey servers)).Nodup := by
        simpa [keys] using h
      have hfm : (b :: bs).filterMap (fun b =>
          (findServer servers b).map fun d =>
            (uniqueServerId d.mcpServerId b.userId, entryOf d b)) =
          (uniqueServerId d.mcpServerId b.userId, entryOf d b) :: bs.filterMap (fun b =>
            (findServer servers b).map fun d =>
              (uniqueServerId d.mcpServerId b.userId, entryOf d b)) :=
        List.filterMap_cons_some (by simp [hf])
      rw [hstep, ih _ h', hfm]
      simp

theorem writtenKey_ne_of (servers : List McpServer) (b : UserMcpServer) (k : String)
    (h : ∀ d, findServer servers b = some d → d.mcpServerId ++ "-" ++ b.userId ≠ k) :
    writtenKey servers b ≠ some k := by
  unfold writtenKey
  cases hf : findServer servers b with
  | none => simp
  | some d =>
    intro e
    exact h d hf (by simpa [uniqueServerId] using e)

theorem findServer_isSome_eq_any (servers : List McpServer) (b : UserMcpServer) :
    (findServer servers b).isSome =
      servers.any (fun d => d.mcpServerId == b.mcpServerId) := by
  unfold findServer
  induction servers with
  | nil => rfl
  | cons s rest ih =>
    by_cases h : s.mcpServerId = b.mcpServerId
    · simp [List.find?_cons, h]
    · simp [List.find?_cons, h, ih]

theorem length_filterMap_eq_countP {α β : Type} (f : α → Option β) (l : List α) :
    (l.filterMap f).length = l.countP (fun a => (f a).isSome) := by
  induction l with
  | nil => rfl
  | cons a l ih =>
    cases h : f a with
    | none => simp [List.filterMap_cons_none h, List.countP_cons, h, ih]
    | some v => simp [List.filterMap_cons_some h, List.countP_cons, h, ih]

theorem uniqueServerId_right_inj (s u1 u2 : String)
    (h : s ++ "-" ++ u1 = s ++ "-" ++ u2) : u1 = u2 := by
  have hd := congrArg String.data h
  simp only [String.data_append, List.append_assoc] at hd
  have := List.append_cancel_left (List.append_cancel_left hd)
  exact String.ext this

theorem renderArrayTemplate_length (templates : List JsValue) (vars : JsObject JsValue) :
    (renderArrayTemplate templates vars).length = templates.length := by
  simp [renderArrayTemplate]

theorem renderArrayTemplate_get_str (templates : List JsValue) (vars : JsObject JsValue)
    (i : Nat) (s : String) (h : templates[i]? = some (.str s)) :
    (renderArrayTemplate templates vars)[i]? = some (.str (renderTemplate s vars)) := by
  simp [renderArrayTemplate, h]

theorem renderArrayTemplate_get_other (templates : List JsValue) (vars : JsObject JsValue)
    (i : Nat) (v : JsValue) (h : templates[i]? = some v) (hv : ∀ s, v ≠ .str s) :
    (renderArrayTemplate templates vars)[i]? = some v := by
  cases v with
  | str s => exact absurd rfl (hv s)
  | null => simp [renderArrayTemplate, h]
  | bool b => simp [renderArrayTemplate, h]
  | num n => simp [renderArrayTemplate, h]

/-! ## Claims about the assembler -/

/-- C1. For definitions with pairwise distinct ids and bindings whose resolvable
bindings write pairwise distinct keys, the assembled object holds, in binding
order, exactly one entry per resolvable binding and nothing else: its size is
the number of resolvable bindings, every entry comes from a binding and the
definition it references, and for a definition `d` referenced by a binding `b`
the key `d.mcpServerId ++ "-" ++ b.userId` maps to the command of `d` and to
arguments of the length of `d.argsTemplate` whose string elements are the
rendered templates and whose other elements are unchanged. -/
theorem assemble_one_entry_per_resolvable_binding
    (servers : List McpServer) (userConfigs : List UserMcpServer)
    (hids : (servers.map fun s => s.mcpServerId).Nodup)
    (hkeys : (userConfigs.filterMap (writtenKey servers)).Nodup) :
    assemble servers userConfigs =
        userConfigs.filterMap (fun b =>
          (findServer servers b).map fun d =>
            (d.mcpServerId ++ "-" ++ b.userId,
              { command := d.command,
                args := renderArrayTemplate d.argsTemplate b.configVars })) ∧
      (assemble servers userConfigs).length =
        userConfigs.countP (fun b =>
          servers.any fun d => d.mcpServerId == b.mcpServerId) ∧
      (∀ k e, (k, e) ∈ assemble servers userConfigs →
        ∃ d ∈ servers, ∃ b ∈ userConfigs, d.mcpServerId = b.mcpServerId ∧
          k = d.mcpServerId ++ "-" ++ b.userId) ∧
      ∀ d ∈ servers, ∀ b ∈ userConfigs, d.mcpServerId = b.mcpServerId →
        ∃ A : List JsValue,
          getOwn (assemble servers userConfigs) (d.mcpServerId ++ "-" ++ b.userId) =
            some { command := d.command, args := A } ∧
          A.length = d.argsTemplate.length ∧
          (∀ (i : Nat) (s : String), d.argsTemplate[i]? = some (JsValue.str s) →
            A[i]? = some (JsValue.str (renderTemplate s b.configVars))) ∧
          (∀ (i : Nat) (v : JsValue), d.argsTemplate[i]? = some v →
            (∀ s : String, v ≠ JsValue.str s) → A[i]? = some v) := by
  have hlist := foldl_assembleStep_of_nodup servers userConfigs [] (by simpa [keys] using hkeys)
  have hlist' : assemble servers userConfigs =
      userConfigs.filterMap (fun b =>
        (findServer servers b).map fun d =>
          (uniqueServerId d.mcpServerId b.userId, entryOf d b)) := by
    simpa [assemble] using hlist
  refine ⟨hlist', ?_, ?_, ?_⟩
  · rw [hlist', length_filterMap_eq_countP]
    congr 1
    funext b
    rw [← findServer_isSome_eq_any]
    cases findServer servers b <;> rfl
  · intro k e hmem
    rw [hlist', List.mem_filterMap] at hmem
    obtain ⟨b, hb, hfb⟩ := hmem
    cases hf : findServer servers b with
    | none => simp [hf] at hfb
    | some d =>
      rw [hf] at hfb
      have hk : uniqueServerId d.mcpServerId b.userId = k := by
        have := congrArg Prod.fst (Option.some.inj hfb)
        simpa using this
      exact ⟨d, (findServer_some hf).1, b, hb, (findServer_some hf).2, hk.symm⟩
  · intro d hd b hb href
    have hf := findServer_of_nodup servers b d hids hd href
    obtain ⟨pre, post, hsplit⟩ := List.append_of_mem hb
    have hpost : ∀ b' ∈ post,
        writtenKey servers b' ≠ some (uniqueServerId d.mcpServerId b.userId) := by
      intro b' hb' e
      have hw : writtenKey servers b = some (uniqueServerId d.mcpServerId b.userId) := by
        simp [writtenKey, hf]
      have hcons : (b :: post).filterMap (writtenKey servers) =
          uniqueServerId d.mcpServerId b.userId :: post.filterMap (writtenKey servers) :=
        List.filterMap_cons_some hw
      rw [hsplit, List.filterMap_append, hcons] at hkeys
      have hnd := (List.nodup_append.1 hkeys).2.1
      have hnot := (List.nodup_cons.1 hnd).1
      exact hnot (List.mem_filterMap.2 ⟨b', hb', e⟩)
    refine ⟨renderArrayTemplate d.argsTemplate b.configVars, ?_,
      renderArrayTemplate_length _ _, ?_, ?_⟩
    · rw [hsplit]
      exact getOwn_assemble_last servers pre post b d hf hpost
    · intro i s h
      exact renderArrayTemplate_get_str _ _ i s h
    · intro i v h hv
      exact renderArrayTemplate_get_other _ _ i v h hv

/-- C1, at the definitions and bindings of the specification's example. -/
theorem assemble_one_entry_per_resolvable_binding_witness :
    assemble
        [{ mcpServerId := "figma-developer-mcp", description := "", command := "npx",
           argsTemplate := [.str "--api-key=\x7b\x7bkey\x7d\x7d", .str "--stdio"] }]
        [{ id := "1", userId := "U1", mcpServerId := "figma-developer-mcp",
           configVars := [("key", .str "K1")] }] =
      [("figma-developer-mcp-U1",
        { command := "npx", args := [.str "--api-key=K1", .str "--stdio"] })] := by
  have h := (assemble_one_entry_per_resolvable_binding
    [{ mcpServerId := "figma-developer-mcp", description := "", command := "npx",
       argsTemplate := [.str "--api-key=\x7b\x7bkey\x7d\x7d", .str "--stdio"] }]
    [{ id := "1", userId := "U1", mcpServerId := "figma-developer-mcp",
       configVars := [("key", .str "K1")] }] (by decide) (by decide)).1
  rw [h]
  decide

/-- C8. A binding whose `mcpServerId` is the id of no definition leaves the
object under construction unchanged, so the assembled object equals the one
assembled from the same rows without that binding. -/
theorem assemble_skips_unresolvable_binding
    (servers : List McpServer) (pre post : List UserMcpServer) (b : UserMcpServer)
    (h : ∀ d ∈ servers, d.mcpServerId ≠ b.mcpServerId) :
    (∀ acc, assembleStep servers acc b = acc) ∧
      assemble servers (pre ++ b :: post) = assemble servers (pre ++ post) := by
  have hf := findServer_none_of_unreferenced servers b h
  have hstep : ∀ acc, assembleStep servers acc b = acc := by
    intro acc
    simp [assembleStep, hf]
  refine ⟨hstep, ?_⟩
  rw [assemble_append, assemble_append, List.foldl_cons, hstep]

/-- C8, at a binding for an unknown server between two resolvable ones. -/
theorem assemble_skips_unresolvable_binding_witness :
    assemble
        [{ mcpServerId := "github-mcp", description := "", command := "npx",
           argsTemplate := [.str "--stdio"] }]
        ([{ id := "1", userId := "U1", mcpServerId := "github-mcp", configVars := [] }] ++
          { id := "2", userId := "U2", mcpServerId := "gone", configVars := [] } ::
          [{ id := "3", userId := "U3", mcpServerId := "github-mcp", configVars := [] }]) =
      assemble
        [{ mcpServerId := "github-mcp", description := "", command := "npx",
           argsTemplate := [.str "--stdio"] }]
        ([{ id := "1", userId := "U1", mcpServerId := "github-mcp", configVars := [] }] ++
          [{ id := "3", userId := "U3", mcpServerId := "github-mcp", configVars := [] }]) :=
  (assemble_skips_unresolvable_binding _ _ _
    { id := "2", userId := "U2", mcpServerId := "gone", configVars := [] }
    (by decide)).2

/-- C9. When the binding `b` resolves to `d` and no later binding writes the
key of `b`, then, whatever earlier bindings wrote that key, the assembled object
holds exactly one entry under the key and it is the entry computed from `b`. -/
theorem assemble_last_binding_wins
    (servers : List McpServer) (pre post : List UserMcpServer)
    (b : UserMcpServer) (d : McpServer) (hb : findServer servers b = some d)
    (hlast : ∀ b' ∈ post, ∀ d', findServer servers b' = some d' →
      d'.mcpServerId ++ "-" ++ b'.userId ≠ d.mcpServerId ++ "-" ++ b.userId) :
    getOwn (assemble servers (pre ++ b :: post)) (d.mcpServerId ++ "-" ++ b.userId) =
        some { command := d.command,
               args := renderArrayTemplate d.argsTemplate b.configVars } ∧
      (keys (assemble servers (pre ++ b :: post))).count
        (d.mcpServerId ++ "-" ++ b.userId) = 1 ∧
      (assemble servers (pre ++ b :: post)).countP
        (fun p => p.1 == d.mcpServerId ++ "-" ++ b.userId) = 1 := by
  have hget := getOwn_assemble_last servers pre post b d hb
    (fun b' hb' => writtenKey_ne_of servers b' _ (hlast b' hb'))
  have hnd : (keys (assemble servers (pre ++ b :: post))).Nodup :=
    nodup_keys_foldl servers _ [] (by simp [keys])
  have hmem := mem_keys_of_getOwn _ _ _ hget
  have hcount := List.count_eq_one_of_mem hnd hmem
  refine ⟨hget, hcount, ?_⟩
  have : (keys (assemble servers (pre ++ b :: post))).count
      (uniqueServerId d.mcpServerId b.userId) =
      (assemble servers (pre ++ b :: post)).countP
        (fun p => p.1 == uniqueServerId d.mcpServerId b.userId) := by
    unfold keys
    rw [List.count, List.countP_map]
    rfl
  exact this ▸ hcount

/-- C9, at two bindings of one tenant to one definition with different
variables: the entry of the second one stands. -/
theorem assemble_last_binding_wins_witness :
    getOwn
        (assemble
          [{ mcpServerId := "github-mcp", description := "", command := "npx",
             argsTemplate := [.str "--token=\x7b\x7btoken\x7d\x7d"] }]
          ([{ id := "1", userId := "U1", mcpServerId := "github-mcp",
              configVars := [("token", .str "old")] }] ++
            { id := "2", userId := "U1", mcpServerId := "github-mcp",
              configVars := [("token", .str "new")] } :: []))
        "github-mcp-U1" =
      some { command := "npx", args := [.str "--token=new"] } := by
  have h := (assemble_last_binding_wins
    [{ mcpServerId := "github-mcp", description := "", command := "npx",
       argsTemplate := [.str "--token=\x7b\x7btoken\x7d\x7d"] }]
    [{ id := "1", userId := "U1", mcpServerId := "github-mcp",
       configVars := [("token", .str "old")] }] []
    { id := "2", userId := "U1", mcpServerId := "github-mcp",
      configVars := [("token", .str "new")] }
    { mcpServerId := "github-mcp", description := "", command := "npx",
      argsTemplate := [.str "--token=\x7b\x7btoken\x7d\x7d"] }
    (by decide) (by simp)).1
  rw [show ("github-mcp-U1" : String) = "github-mcp" ++ "-" ++ "U1" by decide]
  rw [h]
  decide

theorem eq_singleton_of_length_of_getElem {α : Type} (A : List α) (a : α)
    (hlen : A.length = 1) (h0 : A[0]? = some a) : A = [a] := by
  cases A with
  | nil => simp at hlen
  | cons x rest =>
    have hrest : rest = [] := List.length_eq_zero.1 (by simpa using hlen)
    subst hrest
    simp only [List.getElem?_cons_zero, Option.some.injEq] at h0
    rw [h0]

theorem mem_keys_assemble_of_resolves (servers : List McpServer)
    (bs : List UserMcpServer) (b : UserMcpServer) (d : McpServer) (hb : b ∈ bs)
    (hf : findServer servers b = some d) :
    d.mcpServerId ++ "-" ++ b.userId ∈ keys (assemble servers bs) := by
  obtain ⟨pre, post, rfl⟩ := List.append_of_mem hb
  clear hb
  rw [assemble_append, List.foldl_cons]
  have hstep : d.mcpServerId ++ "-" ++ b.userId ∈
      keys (assembleStep servers (assemble servers pre) b) := by
    simp only [assembleStep, hf]
    exact (mem_keys_setProp _ _ _ _).2 (Or.inl rfl)
  generalize assembleStep servers (assemble servers pre) b = acc at hstep
  induction post generalizing acc with
  | nil => exact hstep
  | cons c post ih =>
    rw [List.foldl_cons]
    apply ih
    unfold assembleStep
    cases findServer servers c with
    | none => exact hstep
    | some d' => exact (mem_keys_setProp _ _ _ _).2 (Or.inr hstep)

theorem getOwn_assemble_last_args (servers : List McpServer)
    (pre post : List UserMcpServer) (b : UserMcpServer) (d : McpServer)
    (hb : findServer servers b = some d)
    (hpost : ∀ b' ∈ post, ∀ d', findServer servers b' = some d' →
      d'.mcpServerId ++ "-" ++ b'.userId ≠ d.mcpServerId ++ "-" ++ b.userId) :
    ∃ A : List JsValue,
      getOwn (assemble servers (pre ++ b :: post)) (d.mcpServerId ++ "-" ++ b.userId) =
        some { command := d.command, args := A } ∧
      A.length = d.argsTemplate.length ∧
      (∀ (i : Nat) (s : String), d.argsTemplate[i]? = some (JsValue.str s) →
        A[i]? = some (JsValue.str (renderTemplate s b.configVars))) ∧
      (∀ (i : Nat) (v : JsValue), d.argsTemplate[i]? = some v →
        (∀ s : String, v ≠ JsValue.str s) → A[i]? = some v) :=
  ⟨renderArrayTemplate d.argsTemplate b.configVars,
    getOwn_assemble_last servers pre post b d hb
      (fun b' hb' => writtenKey_ne_of servers b' _ (hpost b' hb')),
    renderArrayTemplate_length _ _,
    fun i s h => renderArrayTemplate_get_str _ _ i s h,
    fun i v h hv => renderArrayTemplate_get_other _ _ i v h hv⟩

/-- C10, as stated, fails: tenants `U1` and `U2` are bound to one definition,
and a later second binding of `U1` takes the key of the first, so that key
does not hold the entry rendered from the first binding's variables. -/
theorem assemble_later_binding_replaces_entry :
    findServer
        [{ mcpServerId := "github-mcp", description := "", command := "npx",
           argsTemplate := [JsValue.str "--token=\x7b\x7btoken\x7d\x7d"] }]
        { id := "1", userId := "U1", mcpServerId := "github-mcp",
          configVars := [("token", JsValue.str "T1")] } =
      findServer
        [{ mcpServerId := "github-mcp", description := "", command := "npx",
           argsTemplate := [JsValue.str "--token=\x7b\x7btoken\x7d\x7d"] }]
        { id := "2", userId := "U2", mcpServerId := "github-mcp",
          configVars := [("token", JsValue.str "T2")] } ∧
    ("U1" : String) ≠ "U2" ∧
    getOwn
        (assemble
          [{ mcpServerId := "github-mcp", description := "", command := "npx",
             argsTemplate := [JsValue.str "--token=\x7b\x7btoken\x7d\x7d"] }]
          [{ id := "1", userId := "U1", mcpServerId := "github-mcp",
             configVars := [("token", JsValue.str "T1")] },
           { id := "2", userId := "U2", mcpServerId := "github-mcp",
             configVars := [("token", JsValue.str "T2")] },
           { id := "3", userId := "U1", mcpServerId := "github-mcp",
             configVars := [("token", JsValue.str "T3")] }])
        "github-mcp-U1" =
      some { command := "npx", args := [JsValue.str "--token=T3"] } ∧
    renderTemplate "--token=\x7b\x7btoken\x7d\x7d" [("token", JsValue.str "T1")] =
      "--token=T1" := by
  decide

/-- C10, amended. Two bindings that resolve to the same definition `d` for
different tenants write two distinct keys and both keys are in the assembled
object, so neither binding takes the key of the other; each key holds the
command of `d` and the arguments of `d` rendered with its own binding's
variables unless a later binding writes that same key. -/
theorem assemble_distinct_tenants_keep_own_entries
    (servers : List McpServer) (d : McpServer) (b1 b2 : UserMcpServer)
    (l0 l1 l2 : List UserMcpServer)
    (h1 : findServer servers b1 = some d) (h2 : findServer servers b2 = some d)
    (hu : b1.userId ≠ b2.userId) :
    d.mcpServerId ++ "-" ++ b1.userId ≠ d.mcpServerId ++ "-" ++ b2.userId ∧
      d.mcpServerId ++ "-" ++ b1.userId ∈
        keys (assemble servers (l0 ++ b1 :: (l1 ++ b2 :: l2))) ∧
      d.mcpServerId ++ "-" ++ b2.userId ∈
        keys (assemble servers (l0 ++ b1 :: (l1 ++ b2 :: l2))) ∧
      ((∀ b ∈ l1 ++ l2, ∀ d', findServer servers b = some d' →
          d'.mcpServerId ++ "-" ++ b.userId ≠ d.mcpServerId ++ "-" ++ b1.userId) →
        ∃ A : List JsValue,
          getOwn (assemble servers (l0 ++ b1 :: (l1 ++ b2 :: l2)))
              (d.mcpServerId ++ "-" ++ b1.userId) =
            some { command := d.command, args := A } ∧
          A.length = d.argsTemplate.length ∧
          (∀ (i : Nat) (s : String), d.argsTemplate[i]? = some (JsValue.str s) →
            A[i]? = some (JsValue.str (renderTemplate s b1.configVars))) ∧
          (∀ (i : Nat) (v : JsValue), d.argsTemplate[i]? = some v →
            (∀ s : String, v ≠ JsValue.str s) → A[i]? = some v)) ∧
      ((∀ b ∈ l2, ∀ d', findServer servers b = some d' →
          d'.mcpServerId ++ "-" ++ b.userId ≠ d.mcpServerId ++ "-" ++ b2.userId) →
        ∃ A : List JsValue,
          getOwn (assemble servers (l0 ++ b1 :: (l1 ++ b2 :: l2)))
              (d.mcpServerId ++ "-" ++ b2.userId) =
            some { command := d.command, args := A } ∧
          A.length = d.argsTemplate.length ∧
          (∀ (i : Nat) (s : String), d.argsTemplate[i]? = some (JsValue.str s) →
            A[i]? = some (JsValue.str (renderTemplate s b2.configVars))) ∧
          (∀ (i : Nat) (v : JsValue), d.argsTemplate[i]? = some v →
            (∀ s : String, v ≠ JsValue.str s) → A[i]? = some v)) := by
  have hne : d.mcpServerId ++ "-" ++ b1.userId ≠ d.mcpServerId ++ "-" ++ b2.userId :=
    fun e => hu (uniqueServerId_right_inj _ _ _ e)
  refine ⟨hne, ?_, ?_, ?_, ?_⟩
  · exact mem_keys_assemble_of_resolves servers _ b1 d (by simp) h1
  · exact mem_keys_assemble_of_resolves servers _ b2 d (by simp) h2
  · intro hl1
    apply getOwn_assemble_last_args servers l0 (l1 ++ b2 :: l2) b1 d h1
    intro b hb d' hd'
    rcases List.mem_append.1 hb with hb | hb
    · exact hl1 b (List.mem_append_left _ hb) d' hd'
    · rcases List.mem_cons.1 hb with e | hb
      · subst e
        rw [h2] at hd'
        cases hd'
        exact fun e => hne e.symm
      · exact hl1 b (List.mem_append_right _ hb) d' hd'
  · intro hl2
    have := getOwn_assemble_last_args servers (l0 ++ b1 :: l1) l2 b2 d h2 hl2
    simpa [List.append_assoc] using this

/-- C10, amended, at the two tenants `U1` and `U2` bound to one definition: the
key of `U1` holds the token of `U1` and the key of `U2` the token of `U2`. -/
theorem assemble_distinct_tenants_keep_own_entries_witness :
    getOwn
        (assemble
          [{ mcpServerId := "github-mcp", description := "", command := "npx",
             argsTemplate := [JsValue.str "--token=\x7b\x7btoken\x7d\x7d"] }]
          [{ id := "1", userId := "U1", mcpServerId := "github-mcp",
             configVars := [("token", JsValue.str "T1")] },
           { id := "2", userId := "U2", mcpServerId := "github-mcp",
             configVars := [("token", JsValue.str "T2")] }])
        "github-mcp-U1" =
      some { command := "npx", args := [JsValue.str "--token=T1"] } ∧
    getOwn
        (assemble
          [{ mcpServerId := "github-mcp", description := "", command := "npx",
             argsTemplate := [JsValue.str "--token=\x7b\x7btoken\x7d\x7d"] }]
          [{ id := "1", userId := "U1", mcpServerId := "github-mcp",
             configVars := [("token", JsValue.str "T1")] },
           { id := "2", userId := "U2", mcpServerId := "github-mcp",
             configVars := [("token", JsValue.str "T2")] }])
        "github-mcp-U2" =
      some { command := "npx", args := [JsValue.str "--token=T2"] } := by
  obtain ⟨_, _, _, hA1, hA2⟩ := assemble_distinct_tenants_keep_own_entries
    [{ mcpServerId := "github-mcp", description := "", command := "npx",
       argsTemplate := [JsValue.str "--token=\x7b\x7btoken\x7d\x7d"] }]
    { mcpServerId := "github-mcp", description := "", command := "npx",
      argsTemplate := [JsValue.str "--token=\x7b\x7btoken\x7d\x7d"] }
    { id := "1", userId := "U1", mcpServerId := "github-mcp",
      configVars := [("token", JsValue.str "T1")] }
    { id := "2", userId := "U2", mcpServerId := "github-mcp",
      configVars := [("token", JsValue.str "T2")] }
    [] [] [] (by decide) (by decide) (by decide)
  obtain ⟨A1, hg1, hlen1, hs1, _⟩ := hA1 (by simp)
  obtain ⟨A2, hg2, hlen2, hs2, _⟩ := hA2 (by simp)
  have e1 : A1 = [JsValue.str "--token=T1"] :=
    eq_singleton_of_length_of_getElem A1 _ hlen1
      ((hs1 0 "--token=\x7b\x7btoken\x7d\x7d" rfl).trans (by decide))
  have e2 : A2 = [JsValue.str "--token=T2"] :=
    eq_singleton_of_length_of_getElem A2 _ hlen2
      ((hs2 0 "--token=\x7b\x7btoken\x7d\x7d" rfl).trans (by decide))
  rw [e1] at hg1
  rw [e2] at hg2
  exact ⟨hg1, hg2⟩

/-! ## The tenant-qualified key -/

theorem append_sep_inj_of_not_mem_left (sep : Char) (s1 s2 u1 u2 : List Char)
    (h1 : sep ∉ s1) (h2 : sep ∉ s2) (h : s1 ++ sep :: u1 = s2 ++ sep :: u2) :
    s1 = s2 ∧ u1 = u2 := by
  induction s1 generalizing s2 with
  | nil =>
    cases s2 with
    | nil => simpa using h
    | cons c s2 =>
      simp only [List.nil_append, List.cons_append, List.cons.injEq] at h
      exact absurd (h.1 ▸ List.mem_cons_self _ _) h2
  | cons c s1 ih =>
    cases s2 with
    | nil =>
      simp only [List.nil_append, List.cons_append, List.cons.injEq] at h
      exact absurd (h.1 ▸ List.mem_cons_self _ _) h1
    | cons c2 s2 =>
      simp only [List.cons_append, List.cons.injEq] at h
      have := ih s2 (fun m => h1 (List.mem_cons_of_mem _ m))
        (fun m => h2 (List.mem_cons_of_mem _ m)) h.2
      exact ⟨by rw [h.1, this.1], this.2⟩

theorem append_sep_inj_of_not_mem_right (sep : Char) (s1 s2 u1 u2 : List Char)
    (h1 : sep ∉ u1) (h2 : sep ∉ u2) (h : s1 ++ sep :: u1 = s2 ++ sep :: u2) :
    s1 = s2 ∧ u1 = u2 := by
  have hr := congrArg List.reverse h
  simp only [List.reverse_append, List.reverse_cons, List.append_assoc,
    List.singleton_append] at hr
  have := append_sep_inj_of_not_mem_left sep u1.reverse u2.reverse s1.reverse s2.reverse
    (by simpa using h1) (by simpa using h2) hr
  exact ⟨List.reverse_injective this.2, List.reverse_injective this.1⟩

theorem uniqueServerId_data (s u : String) :
    (uniqueServerId s u).data = s.data ++ '-' :: u.data := by
  simp [uniqueServerId, String.data_append]

/-- C2, as stated, fails: the separator may also occur inside the two ids, so
definition `mcp` for tenant `eu-7` and definition `mcp-eu` for tenant `7` get
the same key, and the assembled object keeps one entry for the two bindings. -/
theorem uniqueServerId_collision_across_tenants :
    uniqueServerId "mcp" "eu-7" = uniqueServerId "mcp-eu" "7" ∧
      ("mcp" : String) ≠ "mcp-eu" ∧ ("eu-7" : String) ≠ "7" ∧
      assemble
          [{ mcpServerId := "mcp", description := "", command := "a", argsTemplate := [] },
           { mcpServerId := "mcp-eu", description := "", command := "b", argsTemplate := [] }]
          [{ id := "1", userId := "eu-7", mcpServerId := "mcp", configVars := [] },
           { id := "2", userId := "7", mcpServerId := "mcp-eu", configVars := [] }] =
        [("mcp-eu-7", { command := "b", args := [] })] := by
  decide

/-- C2, amended. Equal keys force equal definition ids and equal tenant ids
when the two tenant ids have the same length (as identifiers of one fixed
format have), or when neither tenant id contains the separator, or when neither
definition id contains it. -/
theorem uniqueServerId_injective_of
    (s1 s2 u1 u2 : String)
    (h : u1.length = u2.length ∨ ('-' ∉ u1.toList ∧ '-' ∉ u2.toList) ∨
      ('-' ∉ s1.toList ∧ '-' ∉ s2.toList))
    (heq : uniqueServerId s1 u1 = uniqueServerId s2 u2) : s1 = s2 ∧ u1 = u2 := by
  have hd : s1.data ++ '-' :: u1.data = s2.data ++ '-' :: u2.data := by
    rw [← uniqueServerId_data, ← uniqueServerId_data, heq]
  have key : s1.data = s2.data ∧ u1.data = u2.data := by
    rcases h with hl | ⟨h1, h2⟩ | ⟨h1, h2⟩
    · have hl' : ('-' :: u1.data).length = ('-' :: u2.data).length := by
        have : u1.data.length = u2.data.length := hl
        simp [this]
      have := List.append_inj' hd hl'
      exact ⟨this.1, List.cons_injective this.2⟩
    · exact append_sep_inj_of_not_mem_right '-' _ _ _ _ h1 h2 hd
    · exact append_sep_inj_of_not_mem_left '-' _ _ _ _ h1 h2 hd
  exact ⟨String.ext key.1, String.ext key.2⟩

/-- C2, amended, at the server and tenant ids of the local test. -/
theorem uniqueServerId_injective_of_witness :
    ("figma-developer-mcp" : String) = "figma-developer-mcp" ∧
      ("123e4567-e89b-12d3-a456-426614174001" : String) =
        "123e4567-e89b-12d3-a456-426614174001" :=
  uniqueServerId_injective_of "figma-developer-mcp" "figma-developer-mcp"
    "123e4567-e89b-12d3-a456-426614174001" "123e4567-e89b-12d3-a456-426614174001"
    (Or.inl (by decide)) rfl

/-! ## The authentication middleware -/

theorem splitChars_append_sep (sep : Char) (w r : List Char) (hw : sep ∉ w) :
    splitChars sep (w ++ sep :: r) = w :: splitChars sep r := by
  induction w with
  | nil => simp [splitChars]
  | cons c w ih =>
    have hc : c ≠ sep := fun e => hw (by simp [e])
    have := ih (fun m => hw (List.mem_cons_of_mem _ m))
    simp [splitChars, hc, this]

theorem splitChars_head (sep : Char) (r : List Char) :
    (splitChars sep r).head? = some (r.takeWhile fun c => c != sep) := by
  induction r with
  | nil => simp [splitChars]
  | cons c r ih =>
    by_cases hc : c = sep
    · simp [splitChars, hc]
    · have hne : (c != sep) = true := by simpa using hc
      cases hs : splitChars sep r with
      | nil => simp [hs] at ih
      | cons w ws =>
        rw [hs] at ih
        simp only [List.head?_cons, Option.some.injEq] at ih
        simp [splitChars, hc, hs, List.takeWhile_cons, hne, ih]

theorem bearerToken_bearer (r : String) :
    bearerToken ("Bearer " ++ r) = some (String.mk (r.data.takeWhile fun c => c != ' ')) := by
  have hd : ("Bearer " ++ r).data = ['B', 'e', 'a', 'r', 'e', 'r'] ++ ' ' :: r.data := by
    rw [String.data_append]
    rfl
  unfold bearerToken
  rw [hd, splitChars_append_sep ' ' _ _ (by decide)]
  have := splitChars_head ' ' r.data
  cases hs : splitChars ' ' r.data with
  | nil => simp [hs] at this
  | cons w ws =>
    rw [hs] at this
    simp only [List.head?_cons, Option.some.injEq] at this
    simp [this]

theorem startsWith_append (pre r : String) : startsWith (pre ++ r) pre = true := by
  unfold startsWith
  rw [String.data_append, List.isPrefixOf_iff_prefix]
  exact List.prefix_append _ _

theorem startsWith_iff (s pre : String) :
    startsWith s pre = true ↔ ∃ r : String, s = pre ++ r := by
  unfold startsWith
  rw [List.isPrefixOf_iff_prefix]
  constructor
  · rintro ⟨t, ht⟩
    exact ⟨String.mk t, String.ext (by simp [String.data_append, ht])⟩
  · rintro ⟨r, rfl⟩
    rw [String.data_append]
    exact List.prefix_append _ _

theorem takeWhile_append_of_stop (p : Char → Bool) (w rest : List Char)
    (hw : ∀ c ∈ w, p c = true) (hrest : rest = [] ∨ ∃ c t, rest = c :: t ∧ p c = false) :
    (w ++ rest).takeWhile p = w := by
  induction w with
  | nil =>
    rcases hrest with rfl | ⟨c, t, rfl, hc⟩
    · rfl
    · simp [List.takeWhile_cons, hc]
  | cons a w ih =>
    have ha := hw a (List.mem_cons_self _ _)
    simp [List.takeWhile_cons, ha, ih (fun c hc => hw c (List.mem_cons_of_mem _ hc))]

theorem dropWhile_stop (p : Char → Bool) (l : List Char) :
    l.dropWhile p = [] ∨ ∃ c t, l.dropWhile p = c :: t ∧ p c = false := by
  induction l with
  | nil => exact Or.inl rfl
  | cons a l ih =>
    by_cases ha : p a = true
    · simpa [List.dropWhile_cons, ha] using ih
    · refine Or.inr ⟨a, l, ?_, by simpa using ha⟩
      simp [List.dropWhile_cons, ha]

theorem authMiddleware_bearer (secret : Option String) (r : String) :
    authMiddleware secret (some ("Bearer " ++ r)) =
      if some (String.mk (r.data.takeWhile fun c => c != ' ')) = secret then Outcome.next
      else Outcome.respond 403 "Forbidden" "Invalid authorization token" := by
  have hne : "Bearer " ++ r ≠ "" := by
    intro e
    have := congrArg String.data e
    rw [String.data_append] at this
    exact absurd this (by simp)
  simp only [authMiddleware, hne, startsWith_append, bearerToken_bearer, false_or,
    not_true_eq_false, if_false, ne_eq]
  by_cases h : some (String.mk (r.data.takeWhile fun c => c != ' ')) = secret
  · simp [h]
  · simp [h]

/-- C3, as stated, fails: the token is only the text between the first and the
second space, so a header that continues after the secret is let through
although it is not `"Bearer " ++ secret`, and the exact header of a secret that
contains a space is refused. -/
theorem authMiddleware_not_exact_match :
    authMiddleware (some "test-secret") (some "Bearer test-secret and more") = Outcome.next ∧
      ("Bearer test-secret and more" : String) ≠ "Bearer " ++ "test-secret" ∧
      authMiddleware (some "two words") (some ("Bearer " ++ "two words")) =
        Outcome.respond 403 "Forbidden" "Invalid authorization token" := by
  decide

/-- C3, amended. For a secret `s` and a header `"Bearer " ++ r`, the request
proceeds exactly when `s` contains no space and `r` is `s`, alone or followed by
a space and any further text; every other Bearer-scheme header is answered 403
Forbidden without calling `next`.  With the secret `test-secret`, the header
`Bearer test-secret` proceeds and `Bearer invalid-token` gets 403. -/
theorem authMiddleware_bearer_token_field (s r : String) :
    (authMiddleware (some s) (some ("Bearer " ++ r)) = Outcome.next ↔
        ' ' ∉ s.toList ∧
          ∃ rest : String, (rest = "" ∨ rest.toList.head? = some ' ') ∧ r = s ++ rest) ∧
      (authMiddleware (some s) (some ("Bearer " ++ r)) ≠ Outcome.next →
        authMiddleware (some s) (some ("Bearer " ++ r)) =
          Outcome.respond 403 "Forbidden" "Invalid authorization token") ∧
      authMiddleware (some "test-secret") (some "Bearer test-secret") = Outcome.next ∧
      authMiddleware (some "test-secret") (some "Bearer invalid-token") =
        Outcome.respond 403 "Forbidden" "Invalid authorization token" := by
  refine ⟨?_, ?_, by decide, by decide⟩
  · rw [authMiddleware_bearer]
    constructor
    · intro h
      have hs : String.mk (r.data.takeWhile fun c => c != ' ') = s := by
        by_cases e : some (String.mk (r.data.takeWhile fun c => c != ' ')) = some s
        · exact Option.some.inj e
        · rw [if_neg e] at h
          cases h
      have hdata : s.data = r.data.takeWhile fun c => c != ' ' := by rw [← hs]
      refine ⟨?_, String.mk (r.data.dropWhile fun c => c != ' '), ?_, ?_⟩
      · intro hmem
        have hmem' : ' ' ∈ r.data.takeWhile fun c => c != ' ' := hdata ▸ hmem
        have := List.mem_takeWhile_imp hmem'
        simp at this
      · rcases dropWhile_stop (fun c => c != ' ') r.data with h0 | ⟨c, t, hct, hc⟩
        · left
          exact String.ext h0
        · right
          have hc' : c = ' ' := by simpa using hc
          show (r.data.dropWhile fun c => c != ' ').head? = some ' '
          rw [hct, hc']
          rfl
      · apply String.ext
        rw [String.data_append, hdata]
        exact (List.takeWhile_append_dropWhile _ _).symm
    · rintro ⟨hs, rest, hrest, rfl⟩
      have htw : ((s ++ rest).data.takeWhile fun c => c != ' ') = s.data := by
        rw [String.data_append]
        apply takeWhile_append_of_stop
        · intro c hc
          have : c ≠ ' ' := fun e => hs (e ▸ hc)
          simpa using this
        · rcases hrest with h0 | h1
          · left
            rw [h0]
          · right
            have h1' : rest.data.head? = some ' ' := h1
            cases hd : rest.data with
            | nil => rw [hd] at h1'; cases h1'
            | cons c t =>
              rw [hd] at h1'
              simp only [List.head?_cons, Option.some.injEq] at h1'
              exact ⟨c, t, rfl, by simp [h1']⟩
      rw [htw, if_pos rfl]
  · rw [authMiddleware_bearer]
    intro h
    by_cases e : some (String.mk (r.data.takeWhile fun c => c != ' ')) = some s
    · rw [if_pos e] at h
      exact absurd rfl h
    · rw [if_neg e]

/-- C4. Whatever the configured secret, a request whose authorization header is
absent, empty, or does not start with `"Bearer "` is answered 401 Unauthorized
and `next` is not called. -/
theorem authMiddleware_unauthorized
    (secret authorization : Option String)
    (h : authorization = none ∨ authorization = some "" ∨
      ∃ a, authorization = some a ∧ ∀ r : String, a ≠ "Bearer " ++ r) :
    authMiddleware secret authorization =
        Outcome.respond 401 "Unauthorized" "Missing or invalid authorization header" ∧
      authMiddleware secret authorization ≠ Outcome.next := by
  have key : authMiddleware secret authorization =
      Outcome.respond 401 "Unauthorized" "Missing or invalid authorization header" := by
    rcases h with rfl | rfl | ⟨a, rfl, ha⟩
    · rfl
    · simp [authMiddleware]
    · have hsw : ¬ startsWith a "Bearer " = true := by
        rw [startsWith_iff]
        rintro ⟨r, hr⟩
        exact ha r hr
      simp [authMiddleware, hsw]
  rw [key]
  exact ⟨rfl, by simp⟩

/-- C4, at a header of the Basic scheme. -/
theorem authMiddleware_unauthorized_witness :
    authMiddleware (some "test-secret") (some "Basic dGVzdA==") =
        Outcome.respond 401 "Unauthorized" "Missing or invalid authorization header" ∧
      authMiddleware (some "test-secret") (some "Basic dGVzdA==") ≠ Outcome.next :=
  authMiddleware_unauthorized (some "test-secret") (some "Basic dGVzdA==")
    (Or.inr (Or.inr ⟨"Basic dGVzdA==", rfl, fun r hr => by
      have h := congrArg (fun t : String => (t.data.drop 1).head?) hr
      simp only [String.data_append] at h
      have h' : (some 'a' : Option Char) = some 'e' := h
      exact absurd h' (by decide)⟩))

/-! ## The client proxy -/

theorem mem_keys_foldl_of_mem (servers : List McpServer) (bs : List UserMcpServer)
    (acc : JsObject ServerEntry) (k : String) (h : k ∈ keys acc) :
    k ∈ keys (bs.foldl (assembleStep servers) acc) := by
  induction bs generalizing acc with
  | nil => exact h
  | cons b bs ih =>
    rw [List.foldl_cons]
    apply ih
    unfold assembleStep
    cases findServer servers b with
    | none => exact h
    | some d => exact (mem_keys_setProp _ _ _ _).2 (Or.inr h)

theorem mem_keys_assemble (servers : List McpServer) (bs : List UserMcpServer)
    (b : UserMcpServer) (d : McpServer) (hb : b ∈ bs) (hf : findServer servers b = some d) :
    uniqueServerId d.mcpServerId b.userId ∈ keys (assemble servers bs) := by
  obtain ⟨pre, post, rfl⟩ := List.append_of_mem hb
  rw [assemble_append, List.foldl_cons]
  apply mem_keys_foldl_of_mem
  simp only [assembleStep, hf]
  exact (mem_keys_setProp _ _ _ _).2 (Or.inl rfl)

theorem findServer_of_exists (servers : List McpServer) (b : UserMcpServer)
    (h : ∃ d ∈ servers, d.mcpServerId = b.mcpServerId) :
    ∃ d, findServer servers b = some d := by
  have hany : (findServer servers b).isSome = true := by
    rw [findServer_isSome_eq_any, List.any_eq_true]
    obtain ⟨d, hd, e⟩ := h
    exact ⟨d, hd, by simp [e]⟩
  exact Option.isSome_iff_exists.1 hany

/-- C5. For a non-empty authenticated tenant id `u` and a non-empty server id `s`
given by the path parameter or, when the path gives none, by the body, the
middleware posts to the hub a payload whose `server_name` is `s ++ "-" ++ u`,
also when the body carries a `server_name` of its own, and whose other fields
are those of the body; that value is a key of the assembled object whenever a
binding of tenant `u` to server `s` resolves. -/
theorem clientProxy_forwards_qualified_id
    (env : Env) (req : ProxyRequest) (u s : String)
    (hu : req.userId = some u) (hu0 : u ≠ "") (hs0 : s ≠ "")
    (hs : req.paramsMcpServerId = some s ∨
      ((req.paramsMcpServerId = none ∨ req.paramsMcpServerId = some "") ∧
        getOwn req.body "mcpServerId" = some (JsValue.str s))) :
    ∃ url data, clientProxyMiddleware env req = Outcome.forward url data ∧
      getOwn data "server_name" = some (JsValue.str (s ++ "-" ++ u)) ∧
      (∀ k, k ≠ "server_name" → getOwn data k = getOwn req.body k) ∧
      ∀ (servers : List McpServer) (userConfigs : List UserMcpServer) (b : UserMcpServer),
        b ∈ userConfigs → b.userId = u → b.mcpServerId = s →
        (∃ d ∈ servers, d.mcpServerId = s) →
        s ++ "-" ++ u ∈ keys (assemble servers userConfigs) := by
  have hreq : requestedServerId req = some (JsValue.str s) := by
    unfold requestedServerId
    rcases hs with h | ⟨h | h, hbody⟩
    · rw [h]
      simp [hs0]
    · rw [h]
      exact hbody
    · rw [h]
      simpa using hbody
  refine ⟨"http://localhost:" ++ orElse env.PORT "3000" ++ "/api" ++ req.path,
    setProp req.body "server_name" (JsValue.str (uniqueServerId s u)), ?_, ?_, ?_, ?_⟩
  · simp [clientProxyMiddleware, hu, hu0, hreq, JsValue.truthy, hs0, JsValue.toStr]
  · exact getOwn_setProp_self _ _ _
  · intro k hk
    exact getOwn_setProp_of_ne _ _ _ _ (fun e => hk e.symm)
  · intro servers userConfigs b hb hbu hbs hd
    obtain ⟨d, hf⟩ := findServer_of_exists servers b (by rw [hbs]; exact hd)
    have := mem_keys_assemble servers userConfigs b d hb hf
    rw [(findServer_some hf).2, hbs, hbu] at this
    exact this

/-- C5, at the server and tenant of the local test, with a body that carries
its own `server_name`. -/
theorem clientProxy_forwards_qualified_id_witness :
    ∃ url data,
      clientProxyMiddleware { PORT := none, MCP_HUB_SECRET := none, CONFIG_FILE_PATH := none }
          { userId := some "123e4567-e89b-12d3-a456-426614174001",
            paramsMcpServerId := none,
            body := [("server_name", JsValue.str "other"),
              ("mcpServerId", JsValue.str "figma-developer-mcp")],
            path := "/servers/start" } = Outcome.forward url data ∧
        getOwn data "server_name" =
          some (JsValue.str ("figma-developer-mcp" ++ "-" ++
            "123e4567-e89b-12d3-a456-426614174001")) := by
  obtain ⟨url, data, h1, h2, _⟩ := clientProxy_forwards_qualified_id
    { PORT := none, MCP_HUB_SECRET := none, CONFIG_FILE_PATH := none }
    { userId := some "123e4567-e89b-12d3-a456-426614174001",
      paramsMcpServerId := none,
      body := [("server_name", JsValue.str "other"),
        ("mcpServerId", JsValue.str "figma-developer-mcp")],
      path := "/servers/start" }
    "123e4567-e89b-12d3-a456-426614174001" "figma-developer-mcp"
    rfl (by decide) (by decide) (Or.inr ⟨Or.inl rfl, by decide⟩)
  exact ⟨url, data, h1, h2⟩

/-! ## Writing the file -/

/-- C6, as stated, fails: the document is written straight onto the target, so
a write that stops after 20 characters leaves those 20 characters there and the
document materialised before is gone. -/
theorem generateConfigFile_interrupted_write_truncates :
    (generateConfigFile { PORT := none, MCP_HUB_SECRET := none, CONFIG_FILE_PATH := none }
        "/app/src"
        [{ mcpServerId := "github-mcp", description := "", command := "npx",
           argsTemplate := [JsValue.str "--stdio"] }]
        [{ id := "1", userId := "U1", mcpServerId := "github-mcp", configVars := [] }]
        (fun p => if p = "/app/mcp-servers.json" then some (stringifyConfiguration []) else none)
        (WriteProgress.interrupted 20)).1 "/app/mcp-servers.json" =
      some (String.mk ((stringifyConfiguration
        [("github-mcp-U1", { command := "npx", args := [JsValue.str "--stdio"] })]).data.take 20)) ∧
    (generateConfigFile { PORT := none, MCP_HUB_SECRET := none, CONFIG_FILE_PATH := none }
        "/app/src"
        [{ mcpServerId := "github-mcp", description := "", command := "npx",
           argsTemplate := [JsValue.str "--stdio"] }]
        [{ id := "1", userId := "U1", mcpServerId := "github-mcp", configVars := [] }]
        (fun p => if p = "/app/mcp-servers.json" then some (stringifyConfiguration []) else none)
        (WriteProgress.interrupted 20)).1 "/app/mcp-servers.json" ≠
      some (stringifyConfiguration []) := by
  decide

/-- C6, amended. `generateConfigFile` writes the serialised document directly to
`config.configFilePath`: after a completed write that file holds exactly the
serialisation of the newly assembled object and the object is returned; after a
write interrupted at `n` characters it holds the first `n` characters of that
serialisation and nothing is returned; no other file changes either way. -/
theorem generateConfigFile_overwrites_in_place
    (env : Env) (dirname : String) (servers : List McpServer)
    (userConfigs : List UserMcpServer) (fs : FileSystem) (n : Nat) :
    (generateConfigFile env dirname servers userConfigs fs WriteProgress.completed).1
        (configFilePath env dirname) =
        some (stringifyConfiguration (assemble servers userConfigs)) ∧
      (generateConfigFile env dirname servers userConfigs fs WriteProgress.completed).2 =
        some (assemble servers userConfigs) ∧
      (generateConfigFile env dirname servers userConfigs fs (WriteProgress.interrupted n)).1
        (configFilePath env dirname) =
        some (String.mk
          ((stringifyConfiguration (assemble servers userConfigs)).data.take n)) ∧
      (generateConfigFile env dirname servers userConfigs fs (WriteProgress.interrupted n)).2 =
        none ∧
      ∀ (progress : WriteProgress) (p : String), p ≠ configFilePath env dirname →
        (generateConfigFile env dirname servers userConfigs fs progress).1 p = fs p := by
  refine ⟨by simp [generateConfigFile, fsWriteFile], rfl,
    by simp [generateConfigFile, fsWriteFile], rfl, ?_⟩
  intro progress p hp
  cases progress <;> simp [generateConfigFile, fsWriteFile, hp]

/-! ## The path the hub process is given -/

/-- C7 at `CONFIG_FILE_PATH=/data/mcp-servers.json`, with the sources in
`/app/src`: `generateConfigFile` writes to `/data/mcp-servers.json`, while
`startMcpHub` passes `--config /app/mcp-servers.json`; the two agree when the
variable is unset or empty. -/
theorem startMcpHub_ignores_CONFIG_FILE_PATH :
    configFilePath
        { PORT := none, MCP_HUB_SECRET := none,
          CONFIG_FILE_PATH := some "/data/mcp-servers.json" } "/app/src" =
      "/data/mcp-servers.json" ∧
    configArg (startMcpHubArgs
        { PORT := none, MCP_HUB_SECRET := none,
          CONFIG_FILE_PATH := some "/data/mcp-servers.json" } "/app/src") =
      some "/app/mcp-servers.json" ∧
    (∀ (port secret : Option String) (dirname : String),
      configArg (startMcpHubArgs
          { PORT := port, MCP_HUB_SECRET := secret, CONFIG_FILE_PATH := none } dirname) =
        some (configFilePath
          { PORT := port, MCP_HUB_SECRET := secret, CONFIG_FILE_PATH := none } dirname) ∧
      configArg (startMcpHubArgs
          { PORT := port, MCP_HUB_SECRET := secret, CONFIG_FILE_PATH := some "" } dirname) =
        some (configFilePath
          { PORT := port, MCP_HUB_SECRET := secret, CONFIG_FILE_PATH := some "" } dirname)) := by
  refine ⟨by decide, by decide, ?_⟩
  intro port secret dirname
  constructor <;> simp [configArg, startMcpHubArgs, configFilePath, orElse]

/-! ## The change listener -/

theorem foldl_notificationHandler (channel : String) (msgs : List Notification)
    (calls : List String) :
    msgs.foldl (fun calls msg => calls ++ notificationHandler channel msg) calls =
      calls ++ (msgs.filter fun m => m.channel == channel).map fun m => m.payload := by
  induction msgs generalizing calls with
  | nil => simp
  | cons m msgs ih =>
    rw [List.foldl_cons, ih]
    by_cases h : m.channel = channel
    · simp [notificationHandler, h, List.filter_cons]
    · simp [notificationHandler, h, List.filter_cons]

/-- C13. While any sequence of notifications is delivered to the handler
installed for channel `channel`, the callback is called exactly once for each
notification on that channel, in delivery order and with its payload, and never
for a notification on another channel; the number of calls is the number of
notifications on the channel. -/
theorem deliver_calls_callback_once_per_notification
    (channel : String) (msgs : List Notification) :
    deliver channel msgs =
        (msgs.filter fun m => m.channel == channel).map (fun m => m.payload) ∧
      (deliver channel msgs).length = msgs.countP (fun m => m.channel == channel) ∧
      (∀ m : Notification, m.channel = channel →
        notificationHandler channel m = [m.payload]) ∧
      (∀ m : Notification, m.channel ≠ channel → notificationHandler channel m = []) ∧
      ∀ (before : List Notification) (m : Notification),
        deliver channel (before ++ [m]) =
          deliver channel before ++ (if m.channel = channel then [m.payload] else []) := by
  have h := foldl_notificationHandler channel msgs []
  refine ⟨by simpa [deliver] using h, ?_, ?_, ?_, ?_⟩
  · have h' : deliver channel msgs =
        (msgs.filter fun m => m.channel == channel).map (fun m => m.payload) := by
      simpa [deliver] using h
    rw [h', List.length_map, List.countP_eq_length_filter]
  · intro m hm
    simp [notificationHandler, hm]
  · intro m hm
    simp [notificationHandler, hm]
  · intro before m
    simp [deliver, List.foldl_append, notificationHandler]

/-! ## Failures of a background rebuild -/

/-- C14, as stated, fails: when the first query of a rebuild fails, the promise
of the callback is rejected with that error, nothing handles the rejection, and
under the `throw` mode the process stops, so the next notification triggers
nothing. -/
theorem onChange_rejects_on_failed_pass :
    (onChange { PORT := none, MCP_HUB_SECRET := none, CONFIG_FILE_PATH := none } "/app/src"
        { servers := .error "Connection terminated", userConfigs := .ok [],
          writeFailure := none } (fun _ => none)).2.2 =
      Settled.rejected "Connection terminated" ∧
    (onNotification UnhandledRejections.throw
        { PORT := none, MCP_HUB_SECRET := none, CONFIG_FILE_PATH := none } "/app/src"
        { fs := fun _ => none, console := [], unhandled := [], running := true }
        ({ channel := "userMcpServersChanged", payload := "" },
          { servers := .error "Connection terminated", userConfigs := .ok [],
            writeFailure := none })).unhandled = ["Connection terminated"] ∧
    (onNotification UnhandledRejections.throw
        { PORT := none, MCP_HUB_SECRET := none, CONFIG_FILE_PATH := none } "/app/src"
        (onNotification UnhandledRejections.throw
          { PORT := none, MCP_HUB_SECRET := none, CONFIG_FILE_PATH := none } "/app/src"
          { fs := fun _ => none, console := [], unhandled := [], running := true }
          ({ channel := "userMcpServersChanged", payload := "" },
            { servers := .error "Connection terminated", userConfigs := .ok [],
              writeFailure := none }))
        ({ channel := "userMcpServersChanged", payload := "" },
          { servers := .ok [], userConfigs := .ok [], writeFailure := none })).fs
      "/app/mcp-servers.json" = none := by
  decide

theorem generateConfigFileAsync_of_failure (env : Env) (dirname : String) (io : PassEffects)
    (fs : FileSystem) (e : String) (h : io.failure = some e) :
    ConsoleLine.error "Error generating MCP servers configuration file:" e ∈
        (generateConfigFileAsync env dirname io fs).2.1 ∧
      (generateConfigFileAsync env dirname io fs).2.2 = Settled.rejected e := by
  obtain ⟨sv, uc, wf⟩ := io
  cases sv with
  | error e1 =>
    have : e1 = e := by simpa [PassEffects.failure] using h
    subst this
    simp [generateConfigFileAsync]
  | ok servers =>
    cases uc with
    | error e1 =>
      have : e1 = e := by simpa [PassEffects.failure] using h
      subst this
      simp [generateConfigFileAsync]
    | ok userConfigs =>
      cases wf with
      | none => simp [PassEffects.failure] at h
      | some w =>
        obtain ⟨n, e1⟩ := w
        have : e1 = e := by simpa [PassEffects.failure] using h
        subst this
        simp [generateConfigFileAsync]

/-- C14, amended. When a rebuild pass fails with error `e` inside the callback,
the `catch` block of `generateConfigFile` logs `e` and rethrows it, the promise
of the callback is rejected with `e`, and the handler leaves that rejection
unhandled.  The process is still running afterwards exactly when the runtime
only warns about unhandled rejections; then a later notification on the
channel runs a pass again and a successful one writes the new document. -/
theorem failed_pass_is_logged_and_rethrown
    (mode : UnhandledRejections) (env : Env) (dirname : String) (io : PassEffects)
    (fs : FileSystem) (e : String) (h : io.failure = some e) :
    ConsoleLine.error "Error generating MCP servers configuration file:" e ∈
        (generateConfigFileAsync env dirname io fs).2.1 ∧
      (generateConfigFileAsync env dirname io fs).2.2 = Settled.rejected e ∧
      (onChange env dirname io fs).2.2 = Settled.rejected e ∧
      ∀ (state : ListenerState) (msg : Notification),
        state.running = true → msg.channel = changeChannel →
        (onNotification mode env dirname state (msg, io)).unhandled =
            state.unhandled ++ [e] ∧
          ((onNotification mode env dirname state (msg, io)).running = true ↔
            mode = UnhandledRejections.warn) ∧
          ∀ (msg' : Notification) (servers : List McpServer)
            (userConfigs : List UserMcpServer),
            mode = UnhandledRejections.warn → msg'.channel = changeChannel →
            (onNotification mode env dirname
                (onNotification mode env dirname state (msg, io))
                (msg', { servers := .ok servers, userConfigs := .ok userConfigs,
                         writeFailure := none })).fs (configFilePath env dirname) =
              some (stringifyConfiguration (assemble servers userConfigs)) := by
  obtain ⟨hlog, hrej⟩ := generateConfigFileAsync_of_failure env dirname io fs e h
  have hcb : ∀ fs', (onChange env dirname io fs').2.2 = Settled.rejected e := by
    intro fs'
    have := (generateConfigFileAsync_of_failure env dirname io fs' e h).2
    simp [onChange, this]
  refine ⟨hlog, hrej, hcb fs, ?_⟩
  intro state msg hrun hch
  have hstep : onNotification mode env dirname state (msg, io) =
      { fs := (onChange env dirname io state.fs).1,
        console := state.console ++ (onChange env dirname io state.fs).2.1,
        unhandled := state.unhandled ++ [e],
        running := decide (mode = UnhandledRejections.warn) } := by
    simp only [onNotification, hrun, hch, hcb state.fs]
    simp
  refine ⟨by rw [hstep], by rw [hstep]; simp, ?_⟩
  intro msg' servers userConfigs hmode hch'
  rw [hstep]
  simp [onNotification, hmode, hch', onChange, generateConfigFileAsync, generateConfigFile,
    fsWriteFile]

/-- C14, amended, at a pass whose write fails after 10 characters. -/
theorem failed_pass_is_logged_and_rethrown_witness :
    (onChange { PORT := none, MCP_HUB_SECRET := none, CONFIG_FILE_PATH := none } "/app/src"
        { servers := .ok [], userConfigs := .ok [], writeFailure := some (.interrupted 10, "ENOSPC") }
        (fun _ => none)).2.2 = Settled.rejected "ENOSPC" :=
  (failed_pass_is_logged_and_rethrown UnhandledRejections.warn
    { PORT := none, MCP_HUB_SECRET := none, CONFIG_FILE_PATH := none } "/app/src"
    { servers := .ok [], userConfigs := .ok [], writeFailure := some (.interrupted 10, "ENOSPC") }
    (fun _ => none) "ENOSPC" rfl).2.2.1

/-! ## Validation in the client proxy -/

theorem clientProxy_posted (env : Env) (req : ProxyRequest)
    (hub : String → JsObject JsValue → PostResult) :
    (clientProxy env req hub).posted =
      match clientProxyMiddleware env req with
      | Outcome.forward url data => some (url, data)
      | _ => none := by
  unfold clientProxy clientProxyMiddleware
  cases req.userId with
  | none => rfl
  | some userId =>
    by_cases h0 : userId = ""
    · simp [h0]
    · cases requestedServerId req with
      | none => simp [h0]
      | some v =>
        by_cases hv : v.truthy = true
        · simp [h0, hv, proxyUrl]
        · simp [h0, hv]

theorem answerAfterPost_status_400 (r : PostResult) :
    (answerAfterPost r).status = 400 ↔ ∃ d, r = PostResult.response 400 d := by
  cases r with
  | response status data =>
    by_cases h : 200 ≤ status ∧ status < 300
    · have hne : status ≠ 400 := by omega
      simp [answerAfterPost, h, ProxyResponse.status, hne]
    · simp [answerAfterPost, h, ProxyResponse.status]
  | noResponse => simp [answerAfterPost, ProxyResponse.status]
  | notSent => simp [answerAfterPost, ProxyResponse.status]

theorem answerAfterPost_ne_own_400 (r : PostResult) (error message : String) :
    answerAfterPost r ≠ ProxyResponse.own 400 error message := by
  cases r with
  | response status data =>
    by_cases h : 200 ≤ status ∧ status < 300 <;> simp [answerAfterPost, h]
  | noResponse => simp [answerAfterPost]
  | notSent => simp [answerAfterPost]

/-- C15, as stated, fails: with a server id in the path the request is posted,
and when the hub replies with status 400 the middleware answers with status 400
as well. -/
theorem clientProxy_relays_hub_bad_request :
    (clientProxy { PORT := none, MCP_HUB_SECRET := none, CONFIG_FILE_PATH := none }
        { userId := some "U1", paramsMcpServerId := some "figma-developer-mcp",
          body := [("tool", JsValue.str "x")], path := "/tools/call" }
        (fun _ _ => PostResult.response 400 [("message", JsValue.str "Unknown tool")])).response =
      ProxyResponse.hubError 400 (JsValue.str "Unknown tool")
        [("message", JsValue.str "Unknown tool")] ∧
    (clientProxy { PORT := none, MCP_HUB_SECRET := none, CONFIG_FILE_PATH := none }
        { userId := some "U1", paramsMcpServerId := some "figma-developer-mcp",
          body := [("tool", JsValue.str "x")], path := "/tools/call" }
        (fun _ _ => PostResult.response 400
          [("message", JsValue.str "Unknown tool")])).response.status = 400 ∧
    (clientProxy { PORT := none, MCP_HUB_SECRET := none, CONFIG_FILE_PATH := none }
        { userId := some "U1", paramsMcpServerId := some "figma-developer-mcp",
          body := [("tool", JsValue.str "x")], path := "/tools/call" }
        (fun _ _ => PostResult.response 400 [("message", JsValue.str "Unknown tool")])).posted =
      some ("http://localhost:3000/api/tools/call",
        [("tool", JsValue.str "x"),
         ("server_name", JsValue.str "figma-developer-mcp-U1")]) := by
  decide

/-- C15, amended. For a request of an authenticated tenant and whatever the hub
does: when neither the path parameter nor the body gives a server id (absent,
or empty and the like), the middleware answers 400 Bad Request and posts
nothing to the hub; when one of them gives a server id, the request is posted,
the answer is never a 400 of the middleware's own, and its status is 400
exactly when the hub replied to the post with status 400. -/
theorem clientProxy_validation
    (env : Env) (req : ProxyRequest) (u : String)
    (hub : String → JsObject JsValue → PostResult)
    (hu : req.userId = some u) (hu0 : u ≠ "") :
    (((req.paramsMcpServerId = none ∨ req.paramsMcpServerId = some "") ∧
        (getOwn req.body "mcpServerId" = none ∨
          ∃ v, getOwn req.body "mcpServerId" = some v ∧ v.truthy = false)) →
        (clientProxy env req hub).response =
            ProxyResponse.own 400 "Bad Request" "Missing MCP server ID" ∧
          (clientProxy env req hub).posted = none) ∧
      (((∃ s, req.paramsMcpServerId = some s ∧ s ≠ "") ∨
        ∃ v, getOwn req.body "mcpServerId" = some v ∧ v.truthy = true) →
        (∃ url data, (clientProxy env req hub).posted = some (url, data) ∧
          ((clientProxy env req hub).response.status = 400 ↔
            ∃ d, hub url data = PostResult.response 400 d)) ∧
          ∀ error message,
            (clientProxy env req hub).response ≠ ProxyResponse.own 400 error message) := by
  constructor
  · rintro ⟨hp, hb⟩
    have hreq : requestedServerId req = getOwn req.body "mcpServerId" := by
      unfold requestedServerId
      rcases hp with h | h <;> simp [h]
    rcases hb with h | ⟨v, h, hv⟩
    · simp [clientProxy, hu, hu0, hreq, h]
    · simp [clientProxy, hu, hu0, hreq, h, hv]
  · intro hsup
    have hreq : ∃ v, requestedServerId req = some v ∧ v.truthy = true := by
      unfold requestedServerId
      rcases hsup with ⟨s, hs, hs0⟩ | ⟨v, hv, hvt⟩
      · exact ⟨JsValue.str s, by simp [hs, hs0], by simp [JsValue.truthy, hs0]⟩
      · cases hp : req.paramsMcpServerId with
        | none => exact ⟨v, by simp [hv], hvt⟩
        | some s =>
          by_cases hs0 : s = ""
          · exact ⟨v, by simp [hs0, hv], hvt⟩
          · exact ⟨JsValue.str s, by simp [hs0], by simp [JsValue.truthy, hs0]⟩
    obtain ⟨v, hv, hvt⟩ := hreq
    have key : clientProxy env req hub =
        { posted := some (proxyUrl env req,
            setProp req.body "server_name" (JsValue.str (uniqueServerId v.toStr u))),
          response := answerAfterPost (hub (proxyUrl env req)
            (setProp req.body "server_name" (JsValue.str (uniqueServerId v.toStr u)))) } := by
      simp [clientProxy, hu, hu0, hv, hvt]
    rw [key]
    exact ⟨⟨_, _, rfl, answerAfterPost_status_400 _⟩,
      fun error message => answerAfterPost_ne_own_400 _ error message⟩

/-- C15, amended, at a request with neither a path parameter nor a body field,
while the hub would accept anything. -/
theorem clientProxy_validation_witness :
    (clientProxy { PORT := none, MCP_HUB_SECRET := none, CONFIG_FILE_PATH := none }
        { userId := some "U1", paramsMcpServerId := none, body := [("tool", JsValue.str "x")],
          path := "/servers/start" }
        (fun _ _ => PostResult.response 200 [])).response =
        ProxyResponse.own 400 "Bad Request" "Missing MCP server ID" ∧
      (clientProxy { PORT := none, MCP_HUB_SECRET := none, CONFIG_FILE_PATH := none }
        { userId := some "U1", paramsMcpServerId := none, body := [("tool", JsValue.str "x")],
          path := "/servers/start" }
        (fun _ _ => PostResult.response 200 [])).posted = none :=
  (clientProxy_validation
    { PORT := none, MCP_HUB_SECRET := none, CONFIG_FILE_PATH := none }
    { userId := some "U1", paramsMcpServerId := none, body := [("tool", JsValue.str "x")],
      path := "/servers/start" } "U1" (fun _ _ => PostResult.response 200 []) rfl (by decide)).1
    ⟨Or.inl rfl, Or.inl (by decide)⟩

/-! ## Template rendering: a placeholder in its context -/

theorem renderChars_cons_some (vars : JsObject JsValue) (c : Char) (cs key rest : List Char)
    (h : matchPlaceholder (c :: cs) = some (key, rest)) :
    renderChars vars (c :: cs).length (c :: cs) =
      substitution vars key ++ renderChars vars rest.length rest := by
  simp only [List.length_cons, renderChars, h]
  rw [renderChars_fuel vars cs.length rest.length rest (matchPlaceholder_rest_length h)
    (le_refl _)]
  rfl

theorem renderChars_cons_none (vars : JsObject JsValue) (c : Char) (cs : List Char)
    (h : matchPlaceholder (c :: cs) = none) :
    renderChars vars (c :: cs).length (c :: cs) = c :: renderChars vars cs.length cs := by
  simp only [List.length_cons, renderChars, h]

theorem takeWhile_dropWhile_append_of_stop (p : Char → Bool) (cs t d : List Char) (x : Char)
    (h : cs.dropWhile p = x :: d) :
    (cs ++ t).takeWhile p = cs.takeWhile p ∧ (cs ++ t).dropWhile p = x :: d ++ t := by
  induction cs with
  | nil => simp at h
  | cons a cs ih =>
    by_cases ha : p a = true
    · rw [List.dropWhile_cons, if_pos ha] at h
      have := ih h
      simp [List.takeWhile_cons, List.dropWhile_cons, ha, this]
    · rw [List.dropWhile_cons, if_neg ha] at h
      simp only [List.cons.injEq] at h
      obtain ⟨h1, h2⟩ := h
      subst h1 h2
      simp [List.takeWhile_cons, List.dropWhile_cons, ha]

theorem dropWhile_append_of_all (p : Char → Bool) (cs t : List Char)
    (h : cs.dropWhile p = []) : (cs ++ t).dropWhile p = t.dropWhile p := by
  induction cs with
  | nil => rfl
  | cons a cs ih =>
    by_cases ha : p a = true
    · rw [List.dropWhile_cons, if_pos ha] at h
      simp [List.dropWhile_cons, ha, ih h]
    · rw [List.dropWhile_cons, if_neg ha] at h
      cases h

theorem matchPlaceholder_of (cs rest : List Char)
    (hkey : cs.takeWhile isWordChar ≠ [])
    (hdw : cs.dropWhile isWordChar = '}' :: '}' :: rest) :
    matchPlaceholder ('{' :: '{' :: cs) = some (cs.takeWhile isWordChar, rest) := by
  obtain ⟨a, w, htw⟩ := List.exists_cons_of_ne_nil hkey
  unfold matchPlaceholder
  simp only [hdw, htw]

theorem matchPlaceholder_append (l key rest tail : List Char)
    (h : matchPlaceholder l = some (key, rest)) :
    matchPlaceholder (l ++ tail) = some (key, rest ++ tail) := by
  obtain ⟨cs, rfl, hkey, hne, hdw⟩ := matchPlaceholder_some h
  obtain ⟨htw', hdw'⟩ := takeWhile_dropWhile_append_of_stop isWordChar cs tail _ _ hdw
  have := matchPlaceholder_of (cs ++ tail) (rest ++ tail) (by rw [htw', ← hkey]; exact hne)
    (by rw [hdw']; rfl)
  rw [htw', ← hkey] at this
  exact this

theorem matchPlaceholder_of_append (c : Char) (pre t key rest' : List Char)
    (h : matchPlaceholder (c :: pre ++ '{' :: '{' :: t) = some (key, rest')) :
    ∃ rest, matchPlaceholder (c :: pre) = some (key, rest) ∧
      rest' = rest ++ '{' :: '{' :: t := by
  obtain ⟨cs, hl, hkey, hne, hdw⟩ := matchPlaceholder_some h
  cases pre with
  | nil =>
    simp only [List.cons_append, List.nil_append, List.cons.injEq] at hl
    rw [← hl.2.2] at hkey
    exact absurd (by simpa [List.takeWhile_cons, isWordChar] using hkey) hne
  | cons c2 pre =>
    simp only [List.cons_append, List.cons.injEq] at hl
    obtain ⟨hc, hc2, hcs⟩ := hl
    subst hc hc2
    rw [← hcs] at hkey hdw
    cases hd : pre.dropWhile isWordChar with
    | nil =>
      rw [dropWhile_append_of_all isWordChar pre _ hd] at hdw
      simp [List.dropWhile_cons, isWordChar] at hdw
    | cons x d =>
      obtain ⟨htw', hdw'⟩ :=
        takeWhile_dropWhile_append_of_stop isWordChar pre ('{' :: '{' :: t) d x hd
      rw [hdw'] at hdw
      rw [htw'] at hkey
      simp only [List.cons_append, List.cons.injEq] at hdw
      obtain ⟨hx, hd'⟩ := hdw
      cases d with
      | nil => simp at hd'
      | cons y d =>
        simp only [List.cons_append, List.cons.injEq] at hd'
        obtain ⟨hy, hrest⟩ := hd'
        subst hx hy
        refine ⟨d, ?_, hrest.symm⟩
        have := matchPlaceholder_of pre d (by rw [← hkey]; exact hne) hd
        rw [← hkey] at this
        exact this

theorem renderChars_append_placeholder (vars : JsObject JsValue) (t : List Char) (n : Nat) :
    ∀ pre : List Char, pre.length ≤ n →
      renderChars vars (pre ++ '{' :: '{' :: t).length (pre ++ '{' :: '{' :: t) =
        renderChars vars pre.length pre ++
          renderChars vars ('{' :: '{' :: t).length ('{' :: '{' :: t) := by
  induction n with
  | zero =>
    intro pre hpre
    have : pre = [] := List.length_eq_zero.1 (Nat.le_zero.1 hpre)
    subst this
    simp [renderChars]
  | succ n ih =>
    intro pre hpre
    cases pre with
    | nil => simp [renderChars]
    | cons c pre =>
      have hlen : pre.length ≤ n := by simpa using hpre
      cases hm : matchPlaceholder (c :: pre) with
      | some kr =>
        obtain ⟨key, rest⟩ := kr
        have hfull := matchPlaceholder_append _ _ _ ('{' :: '{' :: t) hm
        have hrest : rest.length ≤ n := le_trans (matchPlaceholder_rest_length hm) hlen
        rw [renderChars_cons_some vars c pre key rest hm]
        have hfull' : matchPlaceholder (c :: (pre ++ '{' :: '{' :: t)) =
            some (key, rest ++ '{' :: '{' :: t) := hfull
        have := renderChars_cons_some vars c (pre ++ '{' :: '{' :: t) key
          (rest ++ '{' :: '{' :: t) hfull'
        rw [List.cons_append, this, ih rest hrest, List.append_assoc]
      | none =>
        have hfull : matchPlaceholder (c :: (pre ++ '{' :: '{' :: t)) = none := by
          cases hf : matchPlaceholder (c :: (pre ++ '{' :: '{' :: t)) with
          | none => rfl
          | some kr =>
            obtain ⟨key, rest'⟩ := kr
            obtain ⟨rest, hpre', _⟩ := matchPlaceholder_of_append c pre t key rest' hf
            rw [hm] at hpre'
            cases hpre'
        rw [renderChars_cons_none vars c pre hm, List.cons_append,
          renderChars_cons_none vars c _ hfull, ih pre hlen, List.cons_append]

theorem dropWhile_append_of_stop (p : Char → Bool) (w rest : List Char)
    (hw : ∀ c ∈ w, p c = true) (hrest : rest = [] ∨ ∃ c t, rest = c :: t ∧ p c = false) :
    (w ++ rest).dropWhile p = rest := by
  induction w with
  | nil =>
    rcases hrest with rfl | ⟨c, t, rfl, hc⟩
    · rfl
    · simp [List.dropWhile_cons, hc]
  | cons a w ih =>
    have ha := hw a (List.mem_cons_self _ _)
    simp [List.dropWhile_cons, ha, ih (fun c hc => hw c (List.mem_cons_of_mem _ hc))]

theorem matchPlaceholder_placeholder (key post : List Char) (hk : key ≠ [])
    (hw : ∀ c ∈ key, isWordChar c = true) :
    matchPlaceholder ('{' :: '{' :: (key ++ '}' :: '}' :: post)) = some (key, post) := by
  have hstop : ('}' :: '}' :: post) = [] ∨
      ∃ c t, ('}' :: '}' :: post) = c :: t ∧ isWordChar c = false :=
    Or.inr ⟨'}', '}' :: post, rfl, by decide⟩
  have htw := takeWhile_append_of_stop isWordChar key _ hw hstop
  have hdw := dropWhile_append_of_stop isWordChar key _ hw hstop
  have := matchPlaceholder_of (key ++ '}' :: '}' :: post) post (by rw [htw]; exact hk) hdw
  rw [htw] at this
  exact this

/-- In the model, a placeholder is substituted in place and independently of
what surrounds it; the text put in is `substitution vars k`. -/
theorem renderTemplate_placeholder_in_context (pre post k : String)
    (vars : JsObject JsValue) (hk : k.data ≠ [])
    (hw : ∀ c ∈ k.data, isWordChar c = true) :
    renderTemplate (pre ++ "\x7b\x7b" ++ k ++ "\x7d\x7d" ++ post) vars =
      renderTemplate pre vars ++ String.mk (substitution vars k.data) ++
        renderTemplate post vars := by
  have hd : (pre ++ "\x7b\x7b" ++ k ++ "\x7d\x7d" ++ post).data =
      pre.data ++ '{' :: '{' :: (k.data ++ '}' :: '}' :: post.data) := by
    simp only [String.data_append, List.append_assoc]
    rfl
  have h1 := renderChars_append_placeholder vars (k.data ++ '}' :: '}' :: post.data)
    pre.data.length pre.data (le_refl _)
  have h2 := renderChars_cons_some vars '{' ('{' :: (k.data ++ '}' :: '}' :: post.data))
    k.data post.data (matchPlaceholder_placeholder k.data post.data hk hw)
  apply String.ext
  simp only [renderTemplate, String.data_append, hd, h1, h2, List.append_assoc]

/-- In the model, a template is returned unchanged when no placeholder in it has
a value, own or inherited, in `vars`; so is every template without placeholder. -/
theorem renderTemplate_eq_self_of_no_substitution (template : String)
    (vars : JsObject JsValue)
    (h : ∀ pre suf key rest, template.data = pre ++ suf →
      matchPlaceholder suf = some (key, rest) → lookupVar vars (String.mk key) = none) :
    renderTemplate template vars = template := by
  have key : ∀ n : Nat, ∀ suf : List Char, suf.length ≤ n →
      (∃ pre, template.data = pre ++ suf) → renderChars vars suf.length suf = suf := by
    intro n
    induction n with
    | zero =>
      intro suf hlen _
      have : suf = [] := List.length_eq_zero.1 (Nat.le_zero.1 hlen)
      subst this
      rfl
    | succ n ih =>
      intro suf hlen hsuf
      cases suf with
      | nil => rfl
      | cons c cs =>
        obtain ⟨pre, hpre⟩ := hsuf
        have hcs : cs.length ≤ n := by simpa using hlen
        cases hm : matchPlaceholder (c :: cs) with
        | none =>
          rw [renderChars_cons_none vars c cs hm,
            ih cs hcs ⟨pre ++ [c], by rw [hpre]; simp⟩]
        | some kr =>
          obtain ⟨k, rest⟩ := kr
          have hnone := h pre (c :: cs) k rest hpre hm
          obtain ⟨cs', hl, hk, _, hdw⟩ := matchPlaceholder_some hm
          have hsplit : cs' = k ++ '}' :: '}' :: rest := by
            rw [hk, ← hdw]
            exact (List.takeWhile_append_dropWhile _ _).symm
          have hrest : rest.length ≤ n := le_trans (matchPlaceholder_rest_length hm) hcs
          rw [renderChars_cons_some vars c cs k rest hm,
            ih rest hrest ⟨pre ++ '{' :: '{' :: (k ++ ['}', '}']), by
              rw [hpre, hl, hsplit]; simp⟩]
          simp only [substitution, hnone]
          rw [hl, hsplit]
          simp
  apply String.ext
  exact key template.data.length template.data (le_refl _) ⟨[], rfl⟩

/-! ## Claims about the renderer -/

/-- C11 at the template `a{{constructor}}b` with no variables:
`constructor` is not a key of the variables, yet it is not left in place; the
property every object inherits is put in instead. -/
theorem renderTemplate_substitutes_inherited_property :
    getOwn ([] : JsObject JsValue) "constructor" = none ∧
      renderTemplate ("a" ++ "\x7b\x7b" ++ "constructor" ++ "\x7d\x7d" ++ "b") [] =
        "afunction Object() \x7b [native code] \x7db" ∧
      renderTemplate ("a" ++ "\x7b\x7b" ++ "constructor" ++ "\x7d\x7d" ++ "b") [] ≠
        renderTemplate "a" [] ++ ("\x7b\x7b" ++ "constructor" ++ "\x7d\x7d") ++
          renderTemplate "b" [] := by
  decide

/-- C12 at the template `{{toString}}` with no variables: its one
placeholder names no key of the variables, yet the template is not returned
unchanged. -/
theorem renderTemplate_changes_unbound_placeholder :
    getOwn ([] : JsObject JsValue) "toString" = none ∧
      renderTemplate "\x7b\x7btoString\x7d\x7d" [] =
        "function toString() \x7b [native code] \x7d" ∧
      renderTemplate "\x7b\x7btoString\x7d\x7d" [] ≠ "\x7b\x7btoString\x7d\x7d" := by
  decide

end McpHub
